import Mathlib

/-!
Verification of the secure-pdf back-end against its specification.

The definitions below are a shallow embedding of the repository's
JavaScript source:

* `Quota` embeds `printQuotaService.js` (the quota-consumption engine
  imported by `routes/docs.js` and `routes/admin.js`): the
  `ATOMIC_PRINT_DECREMENT` Lua script, the idempotency gate, cache-miss
  recovery, the write-behind durable update and the durable optimistic
  fallback.  Redis and MongoDB state is explicit in `Quota.St`.
* `Locks` embeds the `ACQUIRE_RENDER_LOCK_LUA` / `RELEASE_RENDER_LOCK_LUA`
  scripts of `routes/vectorJobRoutes.js` and `workers/vectorWorker.js`,
  together with the admission branch of `POST /jobs`.
* `Worker` embeds `processBatch`, `processMerge` and the queue `failed`
  handler of `workers/vectorWorker.js`.
* `Hmac` embeds `services/hmac.js` (`verifyJobPayload` on top of
  `crypto.timingSafeEqual`).
* `Layout` embeds `vectorLayoutEngine.js` (`buildSlotLayoutPlan`,
  `drawSeriesNumbers`, `parseColor`) over exact rational arithmetic.

JavaScript numbers are modelled as `Int` where the code manipulates
counters and as `ℚ` where it manipulates geometry; nullable fields are
`Option`; thrown exceptions are explicit error values.
-/

namespace Js

/-- `String.prototype.trim()`: strip whitespace from both ends.  (Defined
over the character list so that it reduces definitionally on literals.) -/
def trim (s : String) : String :=
  String.mk
    ((((s.toList.dropWhile Char.isWhitespace).reverse.dropWhile
        Char.isWhitespace).reverse))

end Js

namespace Quota

/-- A `VectorDocumentAccess` record (the durable grant): nullable numeric
fields are `Option Int`, mirroring Mongo documents where the field may be
absent or null. -/
structure Access where
  printQuota : Option Int
  assignedQuota : Option Int
  printsUsed : Option Int
  usedPrints : Option Int
  revoked : Bool
deriving Repr, DecidableEq

/-- Combined external state seen by the quota engine for one
(documentId, userId) pair: the set of live `print_req:*` idempotency keys,
the `remaining` hash field of the `print_quota:*` key (`none` = missing),
and the durable access record (`none` = no grant). -/
structure St where
  reqKeys : List String
  cacheRemaining : Option Int
  db : Option Access
deriving Repr, DecidableEq

/-- Error codes thrown by the engine (`err.code` in the source). -/
inductive Err
  | BAD_REQUEST
  | NO_ACCESS
  | REVOKED
  | LIMIT
deriving Repr, DecidableEq

/-- `print_req:{documentId}:{userId}:{requestId}` -/
def reqKey (documentId userId requestId : String) : String :=
  "print_req:" ++ documentId ++ ":" ++ userId ++ ":" ++ requestId

/-- Effective quota: `Number.isFinite(access.printQuota) && access.printQuota
!== null ? Number(access.printQuota) : Number(access.assignedQuota || 0)`. -/
def quotaEff (a : Access) : Int :=
  match a.printQuota with
  | some q => q
  | none => a.assignedQuota.getD 0

/-- Effective consumption: `Math.max(printsUsed, usedPrints)` with missing
fields read as 0. -/
def usedEff (a : Access) : Int :=
  max (a.printsUsed.getD 0) (a.usedPrints.getD 0)

/-- ioredis `SET key "1" NX EX 300` over the live idempotency keys: the
promise resolves to `"OK"` when the key was set and to `null` when the
key already exists (the client is ioredis — BullMQ and the positional
`eval(script, numKeys, ...)` call shape require it). -/
def redisSetNX (key : String) (keys : List String) :
    Option String × List String :=
  if key ∈ keys then (none, keys) else (some "OK", key :: keys)

/-- The `ATOMIC_PRINT_DECREMENT` Lua script: `-2` on cache miss, `-1` when
`remaining <= 0`, otherwise `HINCRBY remaining -1` and return the new
value. -/
def atomicPrintDecrement (cache : Option Int) : Int × Option Int :=
  match cache with
  | none => (-2, none)
  | some r => if r ≤ 0 then (-1, some r) else (r - 1, some (r - 1))

/-- The lazy backfill performed by `loadAndComputeRemainingFromDb`:
`$set {printQuota, printsUsed: used}` when `printQuota` is null or
`printsUsed` differs from the effective used count. -/
def backfill (a : Access) : Access :=
  if a.printQuota = none ∨ a.printsUsed ≠ some (usedEff a) then
    { a with printQuota := some (quotaEff a), printsUsed := some (usedEff a) }
  else a

/-- `loadAndComputeRemainingFromDb`: throws `NO_ACCESS` / `REVOKED`,
lazily backfills `printQuota` and syncs `printsUsed` to the effective
used count, and returns `max(0, printQuota - used)`. -/
def loadAndComputeRemainingFromDb (st : St) : Except Err (Int × St) :=
  match st.db with
  | none => .error .NO_ACCESS
  | some a =>
    if a.revoked then .error .REVOKED
    else .ok (max 0 (quotaEff a - usedEff a), { st with db := some (backfill a) })

/-- `seedRedisRemaining`: `HSET quota_key remaining String(Math.max(0, r))`. -/
def seedRedisRemaining (st : St) (remaining : Int) : St :=
  { st with cacheRemaining := some (max 0 remaining) }

/-- `writeBehindDbConsume`: `updateOne({documentId, userId, revoked:false},
{$inc:{printsUsed:1}, $set:{lastPrintAt:now}})` — an unconditional
increment filtered only by `revoked=false`. -/
def writeBehindDbConsume (st : St) : St :=
  match st.db with
  | none => st
  | some a =>
    if a.revoked then st
    else { st with db := some { a with printsUsed := some (a.printsUsed.getD 0 + 1) } }

/-- `dbFallbackOptimisticConsume`: differentiating read, lazy `printQuota`
backfill, then a single conditional update requiring
`{revoked:false, printsUsed: {$lt: printQuota}}`; `matchedCount = 0`
becomes `LIMIT`.  (A `$lt` filter does not match a document whose
`printsUsed` field is missing.) -/
def dbFallbackOptimisticConsume (st : St) : Option Err × St :=
  match st.db with
  | none => (some .NO_ACCESS, st)
  | some a =>
    if a.revoked then (some .REVOKED, st)
    else
      let printQuota := quotaEff a
      let a1 : Access :=
        if a.printQuota = none then { a with printQuota := some printQuota } else a
      let matched : Bool :=
        match a1.printsUsed with
        | some pu => decide (pu < printQuota)
        | none => false
      if matched then
        (none, { st with db := some { a1 with printsUsed := some (a1.printsUsed.getD 0 + 1) } })
      else
        (some .LIMIT, st)

/-- The single retry of the decrement after cache-miss recovery: seed the
cache with the computed remaining, re-run the script, and carry the new
cache value. -/
def recoveryRetry (st3 : St) (remaining : Int) : Int × St :=
  let st4 := seedRedisRemaining st3 remaining
  let dec1 := atomicPrintDecrement st4.cacheRemaining
  (dec1.1, { st4 with cacheRemaining := dec1.2 })

/-- Step 3 of the fast path: on `-2`, load/backfill from the durable
store, seed the cache and retry the decrement once; otherwise keep the
first decrement's result. -/
def fastStep3 (st2 : St) (dec0 : Int) : Except Err (Int × St) :=
  if dec0 = -2 then
    match loadAndComputeRemainingFromDb st2 with
    | .error e => .error e
    | .ok (remaining, st3) => .ok (recoveryRetry st3 remaining)
  else .ok (dec0, st2)

/-- Step 4 of the fast path: `LIMIT` (deleting the idempotency key `k`) on
`-1`, write-behind otherwise; a thrown recovery error propagates. -/
def fastFinish (k : String) (st2 : St) :
    Except Err (Int × St) → Option Err × St
  | .error e => (some e, st2)
  | .ok (dec, stD) =>
    if dec = -1 then
      (some .LIMIT, { stD with reqKeys := stD.reqKeys.erase k })
    else
      (none, writeBehindDbConsume stD)

/-- Steps 2–4 of the fast (cache-available) path, entered after the
idempotency gate set the key `k`: atomic decrement, cache-miss recovery
with a single retry, `LIMIT` (deleting `k`) on `-1`, else write-behind. -/
def fastPathAfterGate (k : String) (st1 : St) : Option Err × St :=
  fastFinish k
    { st1 with cacheRemaining := (atomicPrintDecrement st1.cacheRemaining).2 }
    (fastStep3
      { st1 with cacheRemaining := (atomicPrintDecrement st1.cacheRemaining).2 }
      (atomicPrintDecrement st1.cacheRemaining).1)

/-- `assertAndConsumePrintQuota(documentId, userId, requestId)` from
`printQuotaService.js`.  `redisUp = true` models a reachable KV cache with
no transport errors; `redisUp = false` models `getRedisClient()` returning
null, which goes straight to the durable fallback.  Because ioredis
resolves a failed `SET NX` to `null`, the source's
`if (idempotencyOk === null)` branch — annotated "Redis unreachable" —
also captures replays (key already held) and runs
`dbFallbackOptimisticConsume`; the subsequent
`if (!idempotencyOk) return` replay no-op is dead code (a string result
is always `"OK"`, which is truthy).  The result is the thrown error code
(or `none` for success) together with the state after the call. -/
def assertAndConsumePrintQuota (documentId userId requestId : String)
    (redisUp : Bool) (st : St) : Option Err × St :=
  let rid := Js.trim requestId
  if rid = "" then (some .BAD_REQUEST, st)
  else if redisUp then
    let k := reqKey documentId userId rid
    let gate := redisSetNX k st.reqKeys
    match gate.1 with
    | none => dbFallbackOptimisticConsume st
    | some ok =>
      if ok = "" then (none, { st with reqKeys := gate.2 })
      else fastPathAfterGate k { st with reqKeys := gate.2 }
  else
    dbFallbackOptimisticConsume st

end Quota

namespace Hmac

/-- Exceptions from `crypto.timingSafeEqual`: it throws a `RangeError` when
the two buffers differ in byte length. -/
inductive CryptoErr
  | rangeErrorUnequalLength
deriving Repr, DecidableEq

/-- ASCII code of the lowercase hex digit for `n < 16` (Node's
`digest('hex')` is lowercase). -/
def hexCode (n : Nat) : Nat :=
  if n < 10 then 48 + n else 87 + n

/-- The two hex-digit bytes encoding one digest byte. -/
def hexBytesOfByte (b : Nat) : List Nat :=
  [hexCode (b / 16 % 16), hexCode (b % 16)]

/-- `digest('hex')` of a raw MAC, as the bytes of the resulting ASCII
string (which is also what `Buffer.from(actual)` yields). -/
def hexDigestBytes (mac : List Nat) : List Nat :=
  mac.flatMap hexBytesOfByte

/-- `crypto.timingSafeEqual(a, b)`: throws on unequal byte lengths,
otherwise returns whether the buffers are equal. -/
def timingSafeEqual (a b : List Nat) : Except CryptoErr Bool :=
  if a.length = b.length then .ok (decide (a = b))
  else .error .rangeErrorUnequalLength

/-- `verifyJobPayload(payload, expectedHmac)`: `macBytes` is the raw
32-byte HMAC-SHA256 that `signJobPayload` computes over the canonical
stringification (the crypto primitive is an external collaborator, so the
raw digest is an input); `expected` is the stored MAC as the bytes of
`Buffer.from(expectedHmac)`. -/
def verifyJobPayload (macBytes expected : List Nat) : Except CryptoErr Bool :=
  timingSafeEqual (hexDigestBytes macBytes) expected

theorem length_hexDigestBytes (mac : List Nat) :
    (hexDigestBytes mac).length = 2 * mac.length := by
  induction mac with
  | nil => rfl
  | cons b t ih =>
    simp [hexDigestBytes, hexBytesOfByte] at ih ⊢
    omega

end Hmac

namespace Locks

/-- Redis state around one document's render lock: the value stored at
`vector:render:lock:{documentId}` (`none` = key absent), the
`vector:render:active` counter, and the set of job ids with a live
`vector:render:active:{jobId}` membership key. -/
structure LockSt where
  lockVal : Option String
  active : Int
  members : List String
deriving Repr, DecidableEq

/-- Return value of `ACQUIRE_RENDER_LOCK_LUA`: `{0, holder}`,
`{-1, active}`, or `{1, jobId}`. -/
inductive AcquireRes
  | busy (holder : String)
  | throttled (active : Int)
  | acquired (jobId : String)
deriving Repr, DecidableEq

/-- The `ACQUIRE_RENDER_LOCK_LUA` script: busy if the lock key exists;
throttled if the active counter has reached `maxActive` (when positive);
otherwise set the lock to `jobId`, increment the counter and create the
membership key. -/
def acquireRenderLock (st : LockSt) (jobId : String) (maxActive : Int) :
    AcquireRes × LockSt :=
  match st.lockVal with
  | some holder => (.busy holder, st)
  | none =>
    if maxActive > 0 ∧ st.active ≥ maxActive then (.throttled st.active, st)
    else (.acquired jobId,
      { lockVal := some jobId, active := st.active + 1,
        members := st.members.insert jobId })

/-- The `RELEASE_RENDER_LOCK_LUA` script: owner-checked lock delete, then
membership-guarded decrement of the active counter. -/
def releaseRenderLock (st : LockSt) (jobId : String) : LockSt :=
  let st1 := if st.lockVal = some jobId then { st with lockVal := none } else st
  if jobId ∈ st1.members then
    { st1 with
        members := st1.members.erase jobId,
        active := if st1.active > 0 then st1.active - 1 else st1.active }
  else st1

/-- The `releaseRenderLock` wrapper in the worker: a no-op unless both
`documentId` and `printJobId` are non-empty. -/
def releaseRenderLockGuarded (st : LockSt) (documentId printJobId : String) :
    LockSt :=
  if documentId = "" ∨ printJobId = "" then st
  else releaseRenderLock st printJobId

/-- Outcome of the admission branch of `POST /jobs` that runs once
validation passed and Redis is reachable. -/
inductive AdmitRes
  | throttled429
  | pendingExisting (jobId : String)
  | created (jobId : String)
deriving Repr, DecidableEq

/-- The admission branch of `POST /jobs`: run the acquire script with a
freshly preallocated job id; `-1` → HTTP 429; `0` with a non-empty holder
→ respond `{jobId: holder, status: 'PENDING'}` and create nothing;
otherwise proceed to create the PrintJob (under the preallocated id). -/
def admitJob (st : LockSt) (newJobId : String) (maxActive : Int) :
    AdmitRes × LockSt :=
  let r := acquireRenderLock st newJobId maxActive
  match r.1 with
  | .throttled _ => (.throttled429, r.2)
  | .busy holder =>
    if Js.trim holder ≠ "" then (.pendingExisting (Js.trim holder), r.2)
    else (.created newJobId, r.2)
  | .acquired _ => (.created newJobId, r.2)

end Locks

namespace Worker

/-- PrintJob statuses. -/
inductive JobStatus
  | PENDING
  | RUNNING
  | DONE
  | FAILED
  | EXPIRED
deriving Repr, DecidableEq

/-- The base64 alphabet, by sextet value. -/
def b64Char (n : Nat) : Char :=
  if n < 26 then Char.ofNat (65 + n)
  else if n < 52 then Char.ofNat (97 + (n - 26))
  else if n < 62 then Char.ofNat (48 + (n - 52))
  else if n = 62 then '+'
  else '/'

/-- `Buffer.prototype.toString('base64')`: RFC 4648 encoding with `=`
padding, three input bytes per four output characters. -/
def b64encode : List Nat → List Char
  | [] => []
  | [a] => [b64Char (a / 4 % 64), b64Char (a % 4 * 16), '=', '=']
  | [a, b] => [b64Char (a / 4 % 64), b64Char (a % 4 * 16 + b / 16 % 16),
               b64Char (b % 16 * 4), '=']
  | a :: b :: c :: rest =>
    b64Char (a / 4 % 64) :: b64Char (a % 4 * 16 + b / 16 % 16) ::
    b64Char (b % 16 * 4 + c / 64 % 4) :: b64Char (c % 64) :: b64encode rest

/-- The five header bytes `%PDF-` asserted on every rendered page. -/
def pdfMagic : List Nat := [37, 80, 68, 70, 45]

/-- The fields of a `VectorPrintJob` document that `processBatch` reads.
`metadataValid` is the outcome of `validateVectorMetadata(jobDoc.metadata)`;
`macBytes` is the raw HMAC-SHA256 that `signJobPayload` computes over the
canonical metadata; `payloadHmac` is the stored MAC as buffer bytes. -/
structure PrintJobDoc where
  status : JobStatus
  metadataValid : Bool
  macBytes : List Nat
  payloadHmac : List Nat
  totalPages : Nat
deriving Repr, DecidableEq

/-- Errors thrown by `processBatch`. -/
inductive BatchErr
  | printJobNotFound
  | invalidVectorMetadata
  | timingSafeRangeError
  | hmacVerificationFailed
  | pipelineBroken
  | referenceErrorDocumentIdUndefined
deriving Repr, DecidableEq

/-- Return value of a batch child: `{ skipped: true }` or
`{ pages: [{pageIndex, pdfBase64}] }`. -/
inductive BatchResult
  | skipped
  | pages (entries : List (Nat × List Char))
deriving Repr, DecidableEq

/-- The per-page render loop of `processBatch`: render each page with the
layout engine, assert the `%PDF-` header, and accumulate
`{pageIndex, pdfBase64}` entries in page order. -/
def batchRenderLoop (render : Nat → List Nat) : List Nat →
    Except BatchErr (List (Nat × List Char))
  | [] => .ok []
  | p :: rest =>
    let bytes := render p
    if bytes.take 5 = pdfMagic then
      match batchRenderLoop render rest with
      | .ok out => .ok ((p, b64encode bytes) :: out)
      | .error e => .error e
    else .error .pipelineBroken

/-- `processBatch` from `vectorWorker.js`.  `render` is
`vectorLayoutEngine.createSinglePage` followed by `save()` (the engine is
an external collaborator of this function, so the produced page bytes are
an input).  Progress/audit writes do not affect the returned value and are
not tracked here.  After the render loop the source logs a
`VECTOR_BATCH_DONE` line that reads the identifiers `documentId` and
`batchStart`, neither of which is declared in the function or module
scope, so the function raises a `ReferenceError` before reaching
`return { pages: out }`. -/
def processBatch (render : Nat → List Nat) (jobDoc : Option PrintJobDoc)
    (startPage endPage : Nat) : Except BatchErr BatchResult :=
  match jobDoc with
  | none => .error .printJobNotFound
  | some doc =>
    if doc.status = .EXPIRED then .ok .skipped
    else if doc.metadataValid = false then .error .invalidVectorMetadata
    else
      match Hmac.verifyJobPayload doc.macBytes doc.payloadHmac with
      | .error _ => .error .timingSafeRangeError
      | .ok false => .error .hmacVerificationFailed
      | .ok true =>
        match batchRenderLoop render (List.range' startPage (endPage - startPage)) with
        | .error e => .error e
        | .ok _out => .error .referenceErrorDocumentIdUndefined

/-- A child return value observed by the merge parent via
`job.getChildrenValues()`: the legacy single-page shape
`{pageIndex, pdfBase64}`, the batch shape `{pages: [...]}`, or
`{skipped: true}`. -/
inductive ChildValue
  | single (pageIndex : Int) (pdfBase64 : String)
  | pages (entries : List (Int × String))
  | skipped
deriving Repr, DecidableEq

/-- The `{pageIndex, pdfBase64}` pairs contributed by one child value. -/
def childEntries : ChildValue → List (Int × String)
  | .single i b => [(i, b)]
  | .pages es => es
  | .skipped => []

/-- The union of all children's returned page entries, in observation
order. -/
def unionEntries (vs : List ChildValue) : List (Int × String) :=
  vs.flatMap childEntries

/-- Write one entry into the sparse slot array: only indices inside
`[0, totalPages)` are stored (`Number.isFinite(idx) && idx >= 0 && idx <
pageBase64.length`). -/
def setSlot (acc : List (Option String)) (idx : Int) (b64 : String) :
    List (Option String) :=
  if 0 ≤ idx ∧ idx < (acc.length : Int) then acc.set idx.toNat (some b64) else acc

/-- The slot-filling loop of `processMerge` over the children's values. -/
def fillSlots (total : Nat) (vs : List ChildValue) : List (Option String) :=
  (unionEntries vs).foldl (fun acc e => setSlot acc e.1 e.2)
    (List.replicate total none)

/-- The completeness check `if (!pageBase64[i]) throw`: a slot is missing
when it is unset or holds an empty string (both are falsy). -/
def slotMissing : Option String → Bool
  | none => true
  | some s => s = ""

/-- Errors thrown by `processMerge` (deadline disabled, i.e.
`VECTOR_MERGE_MAX_MS = 0`, its default). -/
inductive MergeErr
  | missingRenderedPages
deriving Repr, DecidableEq

/-- The assembly phase of `processMerge`: fill the sparse slot array from
the children's values, fail if any slot is falsy, otherwise copy page 0 of
each decoded slot into the output in ascending index order.  The merged
artifact is modelled by the ordered list of per-slot base64 payloads (the
page copied at position `i` is a function of exactly that payload). -/
def processMergeAssemble (total : Nat) (vs : List ChildValue) :
    Except MergeErr (List String) :=
  let slots := fillSlots total vs
  if slots.any slotMissing then .error .missingRenderedPages
  else .ok (slots.map (fun s => s.getD ""))

/-- One audit entry as pushed by the worker's `failed` handler:
`{event: 'JOB_FAILED', details: {bullmqJobId, name}}`. -/
structure AuditEntry where
  event : String
  bullmqJobId : Option String
  jobName : Option String
deriving Repr, DecidableEq

/-- The mutable PrintJob fields touched by the `failed` handler. -/
structure PrintJobState where
  status : JobStatus
  error : Option (String × Option String)
  audit : List AuditEntry
deriving Repr, DecidableEq

/-- The `worker.on('failed')` handler of `startVectorPdfWorkers`:
no-op without a `printJobId` or when the job document is gone; otherwise
it sets `status = FAILED`, stores `{message, stack}`, appends a
`JOB_FAILED` audit entry — unconditionally — and, only when
`attemptsMade >= attempts`, releases the render lock.  `documentId` is the
trimmed lock-scope id derived from the job's metadata. -/
def onJobFailed (printJobId : Option String) (attempts attemptsMade : Nat)
    (bullmqJobId jobName errMessage : String) (errStack : Option String)
    (jobDoc : Option PrintJobState) (documentId : String)
    (locks : Locks.LockSt) : Option PrintJobState × Locks.LockSt :=
  match printJobId with
  | none => (jobDoc, locks)
  | some pid =>
    match jobDoc with
    | none => (none, locks)
    | some doc =>
      let doc' : PrintJobState :=
        { status := .FAILED,
          error := some (errMessage, errStack),
          audit := doc.audit ++ [⟨"JOB_FAILED", some bullmqJobId, some jobName⟩] }
      if attemptsMade ≥ attempts then
        (some doc', Locks.releaseRenderLockGuarded locks documentId pid)
      else
        (some doc', locks)

end Worker

namespace Layout

/-- A4 width in points (`constants.js`). -/
def A4_WIDTH : ℚ := 595.28

/-- A4 height in points (`constants.js`). -/
def A4_HEIGHT : ℚ := 841.89

/-- Safe margin in points (`constants.js`). -/
def SAFE_MARGIN : ℚ := 28.35

/-- `Math.round`: round half away from zero toward `+∞`. -/
def jsRound (q : ℚ) : ℤ := ⌊q + 1 / 2⌋

/-- `snap(v) = Math.round(v * 1000) / 1000`. -/
def snap (v : ℚ) : ℚ := (jsRound (v * 1000) : ℚ) / 1000

/-- `CoordinateConverter.applyCalibration`: add the calibration offsets and
snap each coordinate. -/
def applyCalibration (dx dy x y : ℚ) : ℚ × ℚ := (snap (x + dx), snap (y + dy))

/-- One slot of the per-page grid returned by `buildSlotLayoutPlan`. -/
structure Slot where
  index : ℕ
  x : ℚ
  y : ℚ
  width : ℚ
  height : ℚ
deriving Repr, DecidableEq

/-- `VectorLayoutEngine.buildSlotLayoutPlan(repeatPerPage, slotSpacingPt)`:
clamp the slot count to at least 1 and the gap to at least 0, zero the gap
when the gaps would consume the whole usable height, and tile the slots
bottom-up inside the safe margins. -/
def buildSlotLayoutPlan (repeatPerPage : ℕ) (slotSpacingPt : ℚ) : List Slot :=
  let slotsPerPage := max 1 repeatPerPage
  let usableHeight := A4_HEIGHT - 2 * SAFE_MARGIN
  let gap := max 0 slotSpacingPt
  let totalGaps := gap * ((slotsPerPage - 1 : ℕ) : ℚ)
  let heightWithGap := usableHeight - totalGaps
  let effectiveGap := if heightWithGap > 0 then gap else 0
  let slotHeight := (usableHeight - effectiveGap * ((slotsPerPage - 1 : ℕ) : ℚ)) / slotsPerPage
  (List.range slotsPerPage).map fun index =>
    { index := index,
      x := SAFE_MARGIN,
      y := SAFE_MARGIN + index * (slotHeight + effectiveGap),
      width := A4_WIDTH - 2 * SAFE_MARGIN,
      height := slotHeight }

/-- A color value produced by `parseColor`: an `rgb(r, g, b)` pdf-lib color
with components in `[0, 1]`, or the NaN-component color that results from
`parseInt` failing on a malformed hex string. -/
inductive ColorVal
  | rgbC (r g b : ℚ)
  | nanColor
deriving Repr, DecidableEq

/-- Value of one hex digit, or `none` for a non-hex character
(`parseInt(s, 16)` yields NaN when the leading character is not hex). -/
def hexDigitVal (c : Char) : Option Nat :=
  if '0' ≤ c ∧ c ≤ '9' then some (c.toNat - 48)
  else if 'a' ≤ c ∧ c ≤ 'f' then some (c.toNat - 87)
  else if 'A' ≤ c ∧ c ≤ 'F' then some (c.toNat - 55)
  else none

/-- `parseInt(two-char hex, 16) / 255` as a color component; `none` = NaN. -/
def hexPair (c1 c2 : Char) : Option ℚ :=
  match hexDigitVal c1, hexDigitVal c2 with
  | some h, some l => some (((h * 16 + l : ℕ) : ℚ) / 255)
  | some h, none => some (((h : ℕ) : ℚ) / 255)
  | none, _ => none

/-- Greedy `\d+` at the head of the character list: the parsed decimal
value and the remainder. -/
def takeDigits : List Char → Option (Nat × List Char)
  | cs =>
    let ds := cs.takeWhile fun c => '0' ≤ c ∧ c ≤ '9'
    if ds.isEmpty then none
    else some (ds.foldl (fun acc c => acc * 10 + (c.toNat - 48)) 0,
               cs.dropWhile fun c => '0' ≤ c ∧ c ≤ '9')

/-- `\s*` — drop leading spaces (the regex only ever meets ASCII spaces
here). -/
def dropSpaces (cs : List Char) : List Char :=
  cs.dropWhile fun c => c = ' ' ∨ c = '\t' ∨ c = '\n' ∨ c = '\r'

/-- Attempt to match `rgb\((\d+),\s*(\d+),\s*(\d+)\)` at the head of the
list, returning the three captured decimal values. -/
def matchRgbAt (cs : List Char) : Option (Nat × Nat × Nat) :=
  match cs with
  | 'r' :: 'g' :: 'b' :: '(' :: rest =>
    match takeDigits rest with
    | none => none
    | some (a, rest1) =>
      match rest1 with
      | ',' :: rest2 =>
        match takeDigits (dropSpaces rest2) with
        | none => none
        | some (b, rest3) =>
          match rest3 with
          | ',' :: rest4 =>
            match takeDigits (dropSpaces rest4) with
            | none => none
            | some (c, rest5) =>
              match rest5 with
              | ')' :: _ => some (a, b, c)
              | _ => none
          | _ => none
      | _ => none
  | _ => none

/-- `String.prototype.match` with the `rgb` pattern: first match anywhere
in the string. -/
def searchRgb : List Char → Option (Nat × Nat × Nat)
  | [] => none
  | c :: rest =>
    match matchRgbAt (c :: rest) with
    | some r => some r
    | none => searchRgb rest

/-- `parseColor` from `vectorLayoutEngine.js`, restricted to its string
inputs (the series/watermark paths always pass a string): falsy → black;
`#RGB` / `#RRGGBB` hex; `rgb(r, g, b)`; otherwise black. -/
def parseColor (s : String) : ColorVal :=
  let cs := s.toList
  if s = "" then .rgbC 0 0 0
  else if cs.head? = some '#' then
    let hex := cs.drop 1
    match hex with
    | [c1, c2, c3] =>
      match hexPair c1 c1, hexPair c2 c2, hexPair c3 c3 with
      | some r, some g, some b => .rgbC r g b
      | _, _, _ => .nanColor
    | [c1, c2, c3, c4, c5, c6] =>
      match hexPair c1 c2, hexPair c3 c4, hexPair c5 c6 with
      | some r, some g, some b => .rgbC r g b
      | _, _, _ => .nanColor
    | _ => .rgbC 0 0 0
  else if cs.take 4 = ['r', 'g', 'b', '('] then
    match searchRgb cs with
    | some (a, b, c) => .rgbC ((a : ℚ) / 255) ((b : ℚ) / 255) ((c : ℚ) / 255)
    | none => .rgbC 0 0 0
  else .rgbC 0 0 0

/-- `seriesConfig.color || '#000000'`. -/
def colorOrDefault (c : Option String) : String :=
  match c with
  | some s => if s = "" then "#000000" else s
  | none => "#000000"

/-- `String.prototype.padStart(targetLength, '0')`. -/
def padStartZeros (s : String) (target : ℕ) : String :=
  if target ≤ s.length then s
  else String.mk (List.replicate (target - s.length) '0') ++ s

/-- One `{xRatio, yRatio}` slot definition of a series. -/
structure SlotRatio where
  xRatio : ℚ
  yRatio : ℚ
deriving Repr, DecidableEq

/-- One slot placement as recorded by the embedding pass: content box
origin, object bounding box in source points, and the aspect-preserving
scale.  Fields are optional to mirror the `??` fallback chains. -/
structure Placement where
  contentLeft : Option ℚ
  contentBottom : Option ℚ
  slotLeft : Option ℚ
  slotBottom : Option ℚ
  objectBBoxW : Option ℚ
  objectBBoxH : Option ℚ
  slotScale : Option ℚ
deriving Repr, DecidableEq

/-- One series configuration as read by `drawSeriesNumbers`. -/
structure SeriesCfg where
  prefixStr : Option String
  padLength : Option Int
  start : Int
  step : Int
  fontSize : ℚ
  color : Option String
  slots : List SlotRatio
  letterFontSizes : Option (List ℚ)
  letterOffsets : Option (List ℚ)
deriving Repr, DecidableEq

/-- One `page.drawText` call issued by the series pass. -/
structure DrawOp where
  text : String
  x : ℚ
  y : ℚ
  size : ℚ
  color : ColorVal
deriving Repr, DecidableEq

/-- Errors thrown by `drawSeriesNumbers`. -/
inductive SeriesErr
  | invalidObjectBBox
  | invalidSlotScale
deriving Repr, DecidableEq

/-- The rendered series value:
`prefix + (padLength > 0 ? String(n).padStart(padLength, '0') : String(n))`
with `n = start + (pageIdx * repeatPerPage + slotIdx) * step`. -/
def seriesValueOf (cfg : SeriesCfg) (pageIdx repeatPerPage slotIdx : ℕ) : String :=
  let globalIdx : ℕ := pageIdx * repeatPerPage + slotIdx
  let seriesNumber : Int := cfg.start + (globalIdx : Int) * cfg.step
  let padLength : Int := cfg.padLength.getD 0
  let pre : String := cfg.prefixStr.getD ""
  if 0 < padLength then pre ++ padStartZeros (toString seriesNumber) padLength.toNat
  else pre ++ toString seriesNumber

/-- The per-letter loop: draw each character of the value at its own size
(`Number(letterFontSizes[li] || fontSizePt) * slotScale`) and baseline
offset (`Number(letterOffsets?.[li] || 0)`), advancing the cursor by
`font.widthOfTextAtSize(ch, size)`. -/
def perLetterOps (widthOf : Char → ℚ → ℚ) (lfs : List ℚ) (offs : Option (List ℚ))
    (color : ColorVal) (fontSizePt slotScale : ℚ) :
    List Char → ℕ → ℚ → ℚ → List DrawOp
  | [], _, _, _ => []
  | ch :: rest, li, cursorX, drawY =>
    let raw : ℚ := match lfs.get? li with
      | some v => if v = 0 then fontSizePt else v
      | none => fontSizePt
    let size := raw * slotScale
    let offsetY : ℚ := match offs with
      | some l => (l.get? li).getD 0
      | none => 0
    { text := String.mk [ch], x := cursorX, y := drawY + offsetY,
      size := size, color := color } ::
      perLetterOps widthOf lfs offs color fontSizePt slotScale rest (li + 1)
        (cursorX + widthOf ch size) drawY

/-- The page-point draw position of the series text for one slot:
`drawX = contentLeft + (xRatio·objW)·slotScale`,
`drawY = (contentBottom + objH·slotScale) − (yRatio·objH + ascent)·slotScale`,
then calibration and snapping. -/
def seriesDrawXY (ascent dx dy : ℚ) (slot : SlotRatio) (pl : Placement) :
    ℚ × ℚ :=
  applyCalibration dx dy
    (pl.contentLeft.getD (pl.slotLeft.getD 0) +
      slot.xRatio * pl.objectBBoxW.getD 0 * pl.slotScale.getD 0)
    (pl.contentBottom.getD (pl.slotBottom.getD 0) +
      pl.objectBBoxH.getD 0 * pl.slotScale.getD 0 -
      (slot.yRatio * pl.objectBBoxH.getD 0 + ascent) * pl.slotScale.getD 0)

/-- The single `drawText` call of the non-per-letter branch. -/
def seriesMainOp (ascent dx dy : ℚ) (cfg : SeriesCfg)
    (pageIdx repeatPerPage slotIdx : ℕ) (slot : SlotRatio) (pl : Placement) :
    DrawOp :=
  { text := seriesValueOf cfg pageIdx repeatPerPage slotIdx,
    x := (seriesDrawXY ascent dx dy slot pl).1,
    y := (seriesDrawXY ascent dx dy slot pl).2,
    size := cfg.fontSize * pl.slotScale.getD 0,
    color := parseColor (colorOrDefault cfg.color) }

/-- The body of the series loop for one slot index: compute the value and
the page-point draw position, validate `objectBBoxPt` and `slotScale`, and
emit the `drawText` call(s).  `ascentOf` is
`fontMetricsCache.getMetrics(font, fontSize).ascent` and `widthOf` is
`font.widthOfTextAtSize` (the embedded font is an external collaborator). -/
def drawSeriesForSlot (ascentOf : ℚ → ℚ) (widthOf : Char → ℚ → ℚ) (dx dy : ℚ)
    (cfg : SeriesCfg) (pageIdx repeatPerPage slotIdx : ℕ)
    (slot : SlotRatio) (pl : Placement) : Except SeriesErr (List DrawOp) :=
  if pl.objectBBoxW.getD 0 ≤ 0 ∨ pl.objectBBoxH.getD 0 ≤ 0 then
    .error .invalidObjectBBox
  else if pl.slotScale.getD 0 ≤ 0 then .error .invalidSlotScale
  else
    match cfg.letterFontSizes with
    | some lfs =>
      if lfs.isEmpty then
        .ok [seriesMainOp (ascentOf cfg.fontSize) dx dy cfg pageIdx
          repeatPerPage slotIdx slot pl]
      else
        .ok (perLetterOps widthOf lfs cfg.letterOffsets
          (parseColor (colorOrDefault cfg.color)) cfg.fontSize
          (pl.slotScale.getD 0)
          (seriesValueOf cfg pageIdx repeatPerPage slotIdx).toList 0
          (seriesDrawXY (ascentOf cfg.fontSize) dx dy slot pl).1
          (seriesDrawXY (ascentOf cfg.fontSize) dx dy slot pl).2)
    | none =>
      .ok [seriesMainOp (ascentOf cfg.fontSize) dx dy cfg pageIdx
        repeatPerPage slotIdx slot pl]

/-- `slot = slots.length === 1 ? slots[0] : slots[slotIdx]`. -/
def slotAt (cfg : SeriesCfg) (slotIdx : ℕ) : Option SlotRatio :=
  if cfg.slots.length = 1 then cfg.slots.get? 0 else cfg.slots.get? slotIdx

/-- `placements[slotIdx]` (always in range in the loop below). -/
def placementAt (placements : List Placement) (slotIdx : ℕ) : Placement :=
  (placements.get? slotIdx).getD
    ⟨none, none, none, none, none, none, none⟩

/-- The slot loop of `drawSeriesNumbers` for one series configuration,
skipping undefined slots (`if (!slot) continue`). -/
def seriesSlotsLoop (ascentOf : ℚ → ℚ) (widthOf : Char → ℚ → ℚ) (dx dy : ℚ)
    (cfg : SeriesCfg) (pageIdx repeatPerPage : ℕ) (placements : List Placement) :
    List ℕ → Except SeriesErr (List DrawOp)
  | [] => .ok []
  | slotIdx :: rest =>
    match slotAt cfg slotIdx with
    | none => seriesSlotsLoop ascentOf widthOf dx dy cfg pageIdx repeatPerPage
        placements rest
    | some slot =>
      match drawSeriesForSlot ascentOf widthOf dx dy cfg pageIdx repeatPerPage
          slotIdx slot (placementAt placements slotIdx) with
      | .error e => .error e
      | .ok ops =>
        match seriesSlotsLoop ascentOf widthOf dx dy cfg pageIdx repeatPerPage
            placements rest with
        | .error e => .error e
        | .ok more => .ok (ops ++ more)

/-- `VectorLayoutEngine.drawSeriesNumbers(page, series, pageIdx,
repeatPerPage, slotPlacements)`: for each series configuration, loop over
`maxSlots = Math.min(placements.length, Number(repeatPerPage) ||
placements.length)` slot indices and emit the draw calls in order. -/
def drawSeriesNumbers (ascentOf : ℚ → ℚ) (widthOf : Char → ℚ → ℚ) (dx dy : ℚ)
    (series : List SeriesCfg) (pageIdx repeatPerPage : ℕ)
    (placements : List Placement) : Except SeriesErr (List DrawOp) :=
  match series with
  | [] => .ok []
  | cfg :: rest =>
    match seriesSlotsLoop ascentOf widthOf dx dy cfg pageIdx repeatPerPage
        placements
        (List.range (min placements.length
          (if repeatPerPage = 0 then placements.length else repeatPerPage))) with
    | .error e => .error e
    | .ok ops =>
      match drawSeriesNumbers ascentOf widthOf dx dy rest pageIdx repeatPerPage
          placements with
      | .error e => .error e
      | .ok more => .ok (ops ++ more)

end Layout

namespace Layout

/-- The spec's effective gap: `G` except that `G = 0` is used whenever
`usable − (S−1)·G ≤ 0`. -/
def specEffectiveGap (S : ℕ) (G : ℚ) : ℚ :=
  if A4_HEIGHT - 2 * SAFE_MARGIN - ((S - 1 : ℕ) : ℚ) * G ≤ 0 then 0 else G

/-- The spec's slot height: `(usable − (S−1)·G′) / S`. -/
def specSlotHeight (S : ℕ) (G : ℚ) : ℚ :=
  (A4_HEIGHT - 2 * SAFE_MARGIN - ((S - 1 : ℕ) : ℚ) * specEffectiveGap S G) / S

/-- The slot-grid property claimed for `buildSlotLayoutPlan`: exactly `S`
slots, slot `i` at origin `(SAFE_MARGIN, SAFE_MARGIN + i·(slotH + G′))`
with width `A4W − 2·SAFE_MARGIN` and height `slotH`, and for `S = 1` a
single slot covering the full usable area. -/
def slotPlanSpec (S : ℕ) (G : ℚ) : Prop :=
  (buildSlotLayoutPlan S G).length = S ∧
  (∀ i : ℕ, i < S →
    (buildSlotLayoutPlan S G)[i]? = some
      { index := i,
        x := SAFE_MARGIN,
        y := SAFE_MARGIN + i * (specSlotHeight S G + specEffectiveGap S G),
        width := A4_WIDTH - 2 * SAFE_MARGIN,
        height := specSlotHeight S G }) ∧
  (S = 1 → buildSlotLayoutPlan S G =
    [{ index := 0, x := SAFE_MARGIN, y := SAFE_MARGIN,
       width := A4_WIDTH - 2 * SAFE_MARGIN,
       height := A4_HEIGHT - 2 * SAFE_MARGIN }])

end Layout

/-- C8: for every `repeatPerPage S ∈ [1,16]` and `slotSpacingPt G ≥ 0`,
`buildSlotLayoutPlan` returns exactly `S` slots with the claimed origins,
width and height, the gap being zeroed exactly when
`usable − (S−1)·G ≤ 0`, and for `S = 1` the single slot occupies the full
usable area. -/
theorem c8_buildSlotLayoutPlan (S : ℕ) (G : ℚ)
    (h1 : 1 ≤ S) (h2 : S ≤ 16) (h3 : 0 ≤ G) :
    Layout.slotPlanSpec S G := by
  have hmax1 : max 1 S = S := max_eq_right h1
  have hmaxG : max 0 G = G := max_eq_right h3
  refine ⟨?_, ?_, ?_⟩
  · simp [Layout.buildSlotLayoutPlan, hmax1]
  · intro i hi
    simp only [Layout.buildSlotLayoutPlan, hmax1, hmaxG]
    rw [List.getElem?_map, List.getElem?_range hi, Option.map_some']
    have hEG : (if Layout.A4_HEIGHT - 2 * Layout.SAFE_MARGIN - G * ((S - 1 : ℕ) : ℚ) > 0
        then G else 0) = Layout.specEffectiveGap S G := by
      unfold Layout.specEffectiveGap
      rw [mul_comm G ((S - 1 : ℕ) : ℚ)]
      by_cases hc : Layout.A4_HEIGHT - 2 * Layout.SAFE_MARGIN - ((S - 1 : ℕ) : ℚ) * G ≤ 0
      · rw [if_pos hc, if_neg (not_lt.mpr hc)]
      · rw [if_neg hc, if_pos (lt_of_not_le hc)]
    rw [hEG]
    simp only [Option.some.injEq, Layout.Slot.mk.injEq, Layout.specSlotHeight]
    refine ⟨trivial, trivial, by ring, trivial, by ring⟩
  · intro hS
    subst hS
    simp [Layout.buildSlotLayoutPlan, hmaxG, List.range_succ]

/-- Witness for C8 at `S = 2`, `G = 5`. -/
theorem c8_buildSlotLayoutPlan_witness :
    ((1 : ℕ) ≤ 2 ∧ (2 : ℕ) ≤ 16 ∧ (0 : ℚ) ≤ 5) ∧ Layout.slotPlanSpec 2 5 :=
  ⟨by norm_num, c8_buildSlotLayoutPlan 2 5 (by norm_num) (by norm_num) (by norm_num)⟩

/-- C6: while the render lock key exists with a (non-empty) holder job id,
the acquire script returns busy with that holder, admission responds with
the holder job id as the PENDING job without creating a new one and
without touching the lock state, and hence two admissions under the held
lock return the same job id both times. -/
theorem c6_admission_idempotent_under_lock (st : Locks.LockSt)
    (holder a b : String) (maxA : Int)
    (hl : st.lockVal = some holder) (hh : Js.trim holder ≠ "") :
    Locks.acquireRenderLock st a maxA = (.busy holder, st) ∧
    Locks.admitJob st a maxA = (.pendingExisting (Js.trim holder), st) ∧
    Locks.admitJob (Locks.admitJob st a maxA).2 b maxA =
      (.pendingExisting (Js.trim holder), st) := by
  have hacq : ∀ j, Locks.acquireRenderLock st j maxA = (.busy holder, st) := by
    intro j
    unfold Locks.acquireRenderLock
    rw [hl]
  have hadm : ∀ j,
      Locks.admitJob st j maxA = (.pendingExisting (Js.trim holder), st) := by
    intro j
    unfold Locks.admitJob
    rw [hacq j]
    simp [hh]
  refine ⟨hacq a, hadm a, ?_⟩
  rw [hadm a]
  exact hadm b

/-- Witness for C6: a held lock with holder `"job1"`. -/
theorem c6_admission_idempotent_under_lock_witness :
    ((⟨some "job1", 1, ["job1"]⟩ : Locks.LockSt).lockVal = some "job1" ∧
      Js.trim "job1" ≠ "") ∧
    (Locks.acquireRenderLock ⟨some "job1", 1, ["job1"]⟩ "a" 0 =
      (.busy "job1", ⟨some "job1", 1, ["job1"]⟩) ∧
     Locks.admitJob ⟨some "job1", 1, ["job1"]⟩ "a" 0 =
      (.pendingExisting (Js.trim "job1"), ⟨some "job1", 1, ["job1"]⟩) ∧
     Locks.admitJob (Locks.admitJob ⟨some "job1", 1, ["job1"]⟩ "a" 0).2 "b" 0 =
      (.pendingExisting (Js.trim "job1"), ⟨some "job1", 1, ["job1"]⟩)) :=
  ⟨⟨rfl, by decide⟩,
    c6_admission_idempotent_under_lock ⟨some "job1", 1, ["job1"]⟩ "job1" "a" "b" 0
      rfl (by decide)⟩

/-- C10: `verifyJobPayload` computes a 64-character hex digest and returns
a boolean only when the stored MAC has byte length 64; any other length
makes `crypto.timingSafeEqual` throw its `RangeError` instead of returning
false, so a batch whose stored MAC is malformed fails with that exception
rather than with the `HMAC verification failed` error. -/
theorem c10_verifyJobPayload_ranges (mac expected : List Nat)
    (h : mac.length = 32) :
    (Hmac.hexDigestBytes mac).length = 64 ∧
    (expected.length ≠ 64 →
      Hmac.verifyJobPayload mac expected = .error .rangeErrorUnequalLength) ∧
    (expected.length = 64 →
      ∃ b, Hmac.verifyJobPayload mac expected = .ok b) ∧
    (∀ (render : Nat → List Nat) (doc : Worker.PrintJobDoc) (sp ep : Nat),
      doc.status ≠ .EXPIRED → doc.metadataValid = true →
      doc.macBytes = mac → doc.payloadHmac = expected → expected.length ≠ 64 →
      Worker.processBatch render (some doc) sp ep =
        .error .timingSafeRangeError) := by
  have hlen : (Hmac.hexDigestBytes mac).length = 64 := by
    rw [Hmac.length_hexDigestBytes, h]
  refine ⟨hlen, ?_, ?_, ?_⟩
  · intro hne
    unfold Hmac.verifyJobPayload Hmac.timingSafeEqual
    rw [if_neg]
    rw [hlen]
    exact fun hh => hne hh.symm
  · intro heq
    unfold Hmac.verifyJobPayload Hmac.timingSafeEqual
    rw [if_pos (by rw [hlen, heq])]
    exact ⟨_, rfl⟩
  · intro render doc sp ep hst hmv hmac hph hne
    have hv : Hmac.verifyJobPayload doc.macBytes doc.payloadHmac =
        .error .rangeErrorUnequalLength := by
      rw [hmac, hph]
      unfold Hmac.verifyJobPayload Hmac.timingSafeEqual
      rw [if_neg]
      rw [hlen]
      exact fun hh => hne hh.symm
    simp [Worker.processBatch, hst, hmv, hv]

/-- Witness for C10: a 32-byte MAC against an empty stored MAC. -/
theorem c10_verifyJobPayload_ranges_witness :
    (List.replicate 32 0).length = 32 ∧
    ((Hmac.hexDigestBytes (List.replicate 32 0)).length = 64 ∧
     (([] : List Nat).length ≠ 64 →
       Hmac.verifyJobPayload (List.replicate 32 0) [] =
         .error .rangeErrorUnequalLength) ∧
     (([] : List Nat).length = 64 →
       ∃ b, Hmac.verifyJobPayload (List.replicate 32 0) [] = .ok b) ∧
     (∀ (render : Nat → List Nat) (doc : Worker.PrintJobDoc) (sp ep : Nat),
       doc.status ≠ .EXPIRED → doc.metadataValid = true →
       doc.macBytes = List.replicate 32 0 → doc.payloadHmac = [] →
       ([] : List Nat).length ≠ 64 →
       Worker.processBatch render (some doc) sp ep =
         .error .timingSafeRangeError)) :=
  ⟨by decide, c10_verifyJobPayload_ranges (List.replicate 32 0) [] (by decide)⟩

namespace Quota

theorem writeBehind_fields (st : St) :
    (writeBehindDbConsume st).reqKeys = st.reqKeys ∧
    (writeBehindDbConsume st).cacheRemaining = st.cacheRemaining := by
  obtain ⟨keys, cache, db⟩ := st
  cases db with
  | none => exact ⟨rfl, rfl⟩
  | some a =>
    by_cases hr : a.revoked <;> simp [writeBehindDbConsume, hr]

theorem loadAndCompute_ok_fields (st : St) (r : Int) (st' : St)
    (h : loadAndComputeRemainingFromDb st = .ok (r, st')) :
    st'.reqKeys = st.reqKeys ∧ st'.cacheRemaining = st.cacheRemaining := by
  obtain ⟨keys, cache, db⟩ := st
  cases db with
  | none => simp [loadAndComputeRemainingFromDb] at h
  | some a =>
    by_cases hrv : a.revoked
    · simp [loadAndComputeRemainingFromDb, hrv] at h
    · simp only [loadAndComputeRemainingFromDb, hrv, if_false, Bool.false_eq_true,
        Except.ok.injEq, Prod.mk.injEq] at h
      obtain ⟨-, h2⟩ := h
      rw [← h2]
      exact ⟨rfl, rfl⟩

theorem recoveryRetry_reqKeys (st3 : St) (rem : Int) :
    (recoveryRetry st3 rem).2.reqKeys = st3.reqKeys := rfl

theorem fastStep3_ok_reqKeys (st2 : St) (d0 dec : Int) (stD : St)
    (h : fastStep3 st2 d0 = .ok (dec, stD)) : stD.reqKeys = st2.reqKeys := by
  unfold fastStep3 at h
  split at h
  · split at h
    next e heq => exact absurd h (by simp)
    next rem st3 heq =>
      have h2 : (recoveryRetry st3 rem).2 = stD :=
        congrArg Prod.snd (Except.ok.inj h)
      rw [← h2, recoveryRetry_reqKeys]
      exact (loadAndCompute_ok_fields _ _ _ heq).1
  · have h2 : st2 = stD := congrArg Prod.snd (Except.ok.inj h)
    rw [← h2]

theorem fastFinish_none (k : String) (st2 : St) (x : Except Err (Int × St))
    (s : St) (h : fastFinish k st2 x = (none, s)) :
    ∃ dec stD, x = .ok (dec, stD) ∧ s = writeBehindDbConsume stD := by
  cases x with
  | error e => exact absurd h (by simp [fastFinish])
  | ok p =>
    obtain ⟨dec, stD⟩ := p
    have h' : (if dec = -1 then
        ((some Err.LIMIT, { stD with reqKeys := stD.reqKeys.erase k }) : Option Err × St)
      else (none, writeBehindDbConsume stD)) = (none, s) := h
    by_cases hd : dec = -1
    · rw [if_pos hd] at h'
      exact absurd h' (by simp)
    · rw [if_neg hd] at h'
      obtain ⟨-, h2⟩ := Prod.mk.inj h'
      exact ⟨dec, stD, rfl, h2.symm⟩

/-- A successful fast-path run never removes the idempotency key. -/
theorem fastPath_ok_reqKeys (k : String) (st1 s : St)
    (h : fastPathAfterGate k st1 = (none, s)) : s.reqKeys = st1.reqKeys := by
  unfold fastPathAfterGate at h
  obtain ⟨dec, stD, hx, hs⟩ := fastFinish_none _ _ _ _ h
  rw [hs, (writeBehind_fields stD).1, fastStep3_ok_reqKeys _ _ _ _ hx]

/-- Quota-2 grant, nothing consumed, cold cache: initial state of the
sequential replay traces. -/
def seqTraceInit : St := ⟨[], none, some ⟨some 2, some 2, some 0, some 0, false⟩⟩

/-- After consuming requestId `r1` once (fast path, cache-miss recovery):
`printsUsed = 1`, cached remaining 1. -/
def seqTraceSt1 : St :=
  ⟨[reqKey "d" "u" "r1"], some 1, some ⟨some 2, some 2, some 1, some 0, false⟩⟩

/-- After replaying `r1`: the failed `SET NX` resolved to null, the call
took the "Redis unreachable" branch and consumed again through the
durable fallback — `printsUsed = 2` while the cached remaining is still
1. -/
def seqTraceSt2 : St :=
  ⟨[reqKey "d" "u" "r1"], some 1, some ⟨some 2, some 2, some 2, some 0, false⟩⟩

/-- After consuming `r2` on the stale cache: the unconditional
write-behind drives `printsUsed` to 3 against `printQuota = 2`. -/
def seqTraceSt3 : St :=
  ⟨[reqKey "d" "u" "r2", reqKey "d" "u" "r1"], some 0,
   some ⟨some 2, some 2, some 3, some 0, false⟩⟩

end Quota

/-- C1 (evaluation at the failing input): ioredis resolves a failed
`SET NX` to null, so the `idempotencyOk === null` branch — written for an
unreachable Redis — also runs on a replay, and the intended
`if (!idempotencyOk) return` no-op is dead code.  With `printQuota = 2`,
a second call with the same (documentId, userId, requestId) within the
window consumes a second time through the durable fallback
(`printsUsed` 1 → 2), and once the quota is exhausted
(`printQuota = printsUsed = 1`) the replay throws `LIMIT` instead of
returning success. -/
theorem c1_replay_consumes_through_fallback :
    Quota.assertAndConsumePrintQuota "d" "u" "r1" true Quota.seqTraceInit =
      (none, Quota.seqTraceSt1) ∧
    Quota.assertAndConsumePrintQuota "d" "u" "r1" true Quota.seqTraceSt1 =
      (none, Quota.seqTraceSt2) ∧
    (Quota.seqTraceSt1.db.map fun a => a.printsUsed) = some (some 1) ∧
    (Quota.seqTraceSt2.db.map fun a => a.printsUsed) = some (some 2) ∧
    Quota.assertAndConsumePrintQuota "d" "u" "r1" true
      ⟨[Quota.reqKey "d" "u" "r1"], some 0,
       some ⟨some 1, some 1, some 1, some 0, false⟩⟩ =
      (some .LIMIT,
       ⟨[Quota.reqKey "d" "u" "r1"], some 0,
        some ⟨some 1, some 1, some 1, some 0, false⟩⟩) :=
  ⟨rfl, rfl, rfl, rfl, rfl⟩

/-- C3: when the decrement script finds `remaining ≤ 0` in the cache
(result `-1`), the call deletes the idempotency key it just set, throws
`LIMIT`, and leaves the whole state — durable store included — exactly as
it was. -/
theorem c3_cache_limit_deletes_reqKey (documentId userId requestId : String)
    (st : Quota.St) (rem : Int)
    (hr : Js.trim requestId ≠ "")
    (hk : Quota.reqKey documentId userId (Js.trim requestId) ∉ st.reqKeys)
    (hc : st.cacheRemaining = some rem) (hrem : rem ≤ 0) :
    Quota.assertAndConsumePrintQuota documentId userId requestId true st =
      (some .LIMIT, st) := by
  obtain ⟨keys, cache, db⟩ := st
  have hc' : cache = some rem := hc
  subst hc'
  have hk' : Quota.reqKey documentId userId (Js.trim requestId) ∉ keys := hk
  simp [Quota.assertAndConsumePrintQuota, Quota.redisSetNX,
    Quota.fastPathAfterGate, Quota.fastStep3, Quota.fastFinish,
    Quota.atomicPrintDecrement, hr, hk', hrem]

/-- Witness for C3: `printQuota = 1`, `printsUsed = 1`, cache remaining 0,
fresh requestId `r2`. -/
theorem c3_cache_limit_deletes_reqKey_witness :
    (Js.trim "r2" ≠ "" ∧
     Quota.reqKey "d" "u" (Js.trim "r2") ∉
       ([] : List String) ∧
     (⟨[], some 0, some ⟨some 1, some 1, some 1, some 0, false⟩⟩ :
       Quota.St).cacheRemaining = some 0 ∧ (0 : Int) ≤ 0) ∧
    Quota.assertAndConsumePrintQuota "d" "u" "r2" true
      ⟨[], some 0, some ⟨some 1, some 1, some 1, some 0, false⟩⟩ =
      (some .LIMIT, ⟨[], some 0, some ⟨some 1, some 1, some 1, some 0, false⟩⟩) :=
  ⟨⟨by decide, by decide, rfl, by decide⟩,
    c3_cache_limit_deletes_reqKey "d" "u" "r2"
      ⟨[], some 0, some ⟨some 1, some 1, some 1, some 0, false⟩⟩ 0
      (by decide) (by decide) rfl (by decide)⟩

namespace Worker

/-- A present, non-expired job with valid metadata whose stored MAC
matches the computed digest. -/
def exampleBatchDoc : PrintJobDoc :=
  { status := .PENDING, metadataValid := true,
    macBytes := List.replicate 32 0,
    payloadHmac := Hmac.hexDigestBytes (List.replicate 32 0),
    totalPages := 1 }

/-- A render that produces well-formed page bytes (`%PDF-1.4`). -/
def exampleRender : Nat → List Nat := fun _ => pdfMagic ++ [49, 46, 52]

end Worker

/-- C5 (evaluation at the failing input): for a present, non-expired job
with valid metadata and a matching MAC, the per-page loop succeeds with
exactly the `[startPage, endPage)` entries, yet `processBatch` does not
return `{ pages }` — it raises the `ReferenceError` caused by the
undefined `documentId`/`batchStart` identifiers in its final log line. -/
theorem c5_processBatch_throws_referenceError :
    Worker.batchRenderLoop Worker.exampleRender (List.range' 0 1) =
      .ok [(0, Worker.b64encode (Worker.exampleRender 0))] ∧
    Worker.processBatch Worker.exampleRender (some Worker.exampleBatchDoc) 0 1 =
      .error .referenceErrorDocumentIdUndefined ∧
    ∀ result,
      Worker.processBatch Worker.exampleRender (some Worker.exampleBatchDoc) 0 1 ≠
        .ok result := by
  refine ⟨rfl, rfl, ?_⟩
  intro result h
  rw [show Worker.processBatch Worker.exampleRender (some Worker.exampleBatchDoc)
      0 1 = .error .referenceErrorDocumentIdUndefined from rfl] at h
  exact absurd h (by simp)

/-- C7 counterexample: a failed batch attempt with `attemptsMade = 1` of
`attempts = 3` — not the final attempt — still sets the PrintJob's status
to FAILED. -/
theorem c7_counterexample_nonfinal_marks_failed :
    1 < 3 ∧
    ((Worker.onJobFailed (some "pj1") 3 1 "q7" "batch" "boom" none
        (some ⟨.RUNNING, none, []⟩) "doc1" ⟨some "pj1", 1, ["pj1"]⟩).1.map
        Worker.PrintJobState.status) = some .FAILED := by
  constructor
  · decide
  · rfl

/-- C7 amended: on every failed attempt — final or not — the handler
marks the job FAILED with `{message, stack}` and appends the `JOB_FAILED`
audit entry (carrying the queue job id and job name); only the
render-lock release is performed solely on the final failed attempt. -/
theorem c7_onJobFailed_always_fails_releases_on_final
    (pid : String) (attempts attemptsMade : Nat)
    (bullmqJobId jobName errMessage : String) (errStack : Option String)
    (doc : Worker.PrintJobState) (documentId : String)
    (locks : Locks.LockSt) :
    Worker.onJobFailed (some pid) attempts attemptsMade bullmqJobId jobName
        errMessage errStack (some doc) documentId locks =
      (some { status := .FAILED, error := some (errMessage, errStack),
              audit := doc.audit ++
                [⟨"JOB_FAILED", some bullmqJobId, some jobName⟩] },
       if attemptsMade ≥ attempts then
         Locks.releaseRenderLockGuarded locks documentId pid
       else locks) := by
  unfold Worker.onJobFailed
  by_cases h : attemptsMade ≥ attempts <;> simp [h]

namespace Layout

theorem parseColor_black : parseColor "#000000" = .rgbC 0 0 0 := by
  rw [show parseColor "#000000" =
    .rgbC (((0 * 16 + 0 : ℕ) : ℚ) / 255) (((0 * 16 + 0 : ℕ) : ℚ) / 255)
      (((0 * 16 + 0 : ℕ) : ℚ) / 255) from rfl]
  norm_num

theorem drawSeriesForSlot_nonPerLetter (ascentOf : ℚ → ℚ)
    (widthOf : Char → ℚ → ℚ) (dx dy : ℚ) (cfg : SeriesCfg)
    (p S i : ℕ) (slot : SlotRatio) (pl : Placement)
    (hW : 0 < pl.objectBBoxW.getD 0) (hH : 0 < pl.objectBBoxH.getD 0)
    (hSc : 0 < pl.slotScale.getD 0)
    (hL : cfg.letterFontSizes = none ∨ cfg.letterFontSizes = some []) :
    drawSeriesForSlot ascentOf widthOf dx dy cfg p S i slot pl =
      .ok [seriesMainOp (ascentOf cfg.fontSize) dx dy cfg p S i slot pl] := by
  have h1 : ¬(pl.objectBBoxW.getD 0 ≤ 0 ∨ pl.objectBBoxH.getD 0 ≤ 0) := by
    push_neg
    exact ⟨hW, hH⟩
  unfold drawSeriesForSlot
  rw [if_neg h1, if_neg (not_le.mpr hSc)]
  rcases hL with h | h
  · rw [h]
  · rw [h]
    rfl

theorem placementAt_mem (placements : List Placement) (i : ℕ)
    (h : i < placements.length) : placementAt placements i ∈ placements := by
  unfold placementAt
  rw [List.get?_eq_getElem?, List.getElem?_eq_getElem h]
  exact List.getElem_mem _

theorem seriesSlotsLoop_ok_map (ascentOf : ℚ → ℚ) (widthOf : Char → ℚ → ℚ)
    (dx dy : ℚ) (cfg : SeriesCfg) (p S : ℕ) (placements : List Placement)
    (hL : cfg.letterFontSizes = none ∨ cfg.letterFontSizes = some [])
    (idxs : List ℕ) :
    (∀ i ∈ idxs, (slotAt cfg i).isSome) →
    (∀ i ∈ idxs, 0 < (placementAt placements i).objectBBoxW.getD 0) →
    (∀ i ∈ idxs, 0 < (placementAt placements i).objectBBoxH.getD 0) →
    (∀ i ∈ idxs, 0 < (placementAt placements i).slotScale.getD 0) →
    seriesSlotsLoop ascentOf widthOf dx dy cfg p S placements idxs =
      .ok (idxs.map fun i => seriesMainOp (ascentOf cfg.fontSize) dx dy cfg p S i
        ((slotAt cfg i).getD ⟨0, 0⟩) (placementAt placements i)) := by
  induction idxs with
  | nil =>
    intro _ _ _ _
    rfl
  | cons i rest ih =>
    intro hslot hW hH hSc
    obtain ⟨slot, hsl⟩ := Option.isSome_iff_exists.mp (hslot i (by simp))
    have hdraw := drawSeriesForSlot_nonPerLetter ascentOf widthOf dx dy cfg p S i
      slot (placementAt placements i) (hW i (by simp)) (hH i (by simp))
      (hSc i (by simp)) hL
    have hrest := ih (fun j hj => hslot j (List.mem_cons_of_mem _ hj))
      (fun j hj => hW j (List.mem_cons_of_mem _ hj))
      (fun j hj => hH j (List.mem_cons_of_mem _ hj))
      (fun j hj => hSc j (List.mem_cons_of_mem _ hj))
    simp only [seriesSlotsLoop, hsl, hdraw, hrest, List.map_cons,
      Option.getD_some, List.singleton_append]

end Layout

namespace Layout

/-- The claimed value/size/color property of the series pass: for each
in-range slot index `i`, one `drawText` call whose string is
`prefix + zeroPad(start + (p·S + i)·step, padLength)` (no padding when
`padLength` is absent or 0), whose size is `fontSize · slotScale`, and
whose color is black when unspecified. -/
def seriesClaimSpec (ascentOf : ℚ → ℚ) (widthOf : Char → ℚ → ℚ)
    (dx dy : ℚ) (cfg : SeriesCfg) (p S : ℕ)
    (placements : List Placement) : Prop :=
  ∃ ops,
    drawSeriesNumbers ascentOf widthOf dx dy [cfg] p S placements = .ok ops ∧
    ops.length =
      min placements.length (if S = 0 then placements.length else S) ∧
    ∀ i,
      i < min placements.length (if S = 0 then placements.length else S) →
      (ops[i]?.map DrawOp.text) = some ((cfg.prefixStr.getD "") ++
        (if 0 < cfg.padLength.getD 0 then
          padStartZeros
            (toString (cfg.start + ((p * S + i : ℕ) : ℤ) * cfg.step))
            (cfg.padLength.getD 0).toNat
        else toString (cfg.start + ((p * S + i : ℕ) : ℤ) * cfg.step))) ∧
      (ops[i]?.map DrawOp.size) =
        some (cfg.fontSize * (placementAt placements i).slotScale.getD 0) ∧
      (cfg.color = none → (ops[i]?.map DrawOp.color) = some (.rgbC 0 0 0))

end Layout

/-- C9 (amended): for a series configuration without per-letter sizes, on
page `p`, slot `i` of `repeatPerPage = S`, the drawn string equals
`prefix + zeroPad(start + (p·S + i)·step, padLength)` (no padding when
`padLength` is absent or 0), the draw size is `fontSize · slotScale`, and
the color defaults to black when unspecified.  (In per-letter mode the
code draws character `li` at `letterFontSizes[li] · slotScale` instead;
see the counterexample.) -/
theorem c9_series_value_size_color (ascentOf : ℚ → ℚ)
    (widthOf : Char → ℚ → ℚ) (dx dy : ℚ) (cfg : Layout.SeriesCfg)
    (p S : ℕ) (placements : List Layout.Placement)
    (hslot : ∀ i,
      i < min placements.length (if S = 0 then placements.length else S) →
      (Layout.slotAt cfg i).isSome)
    (hW : ∀ pl ∈ placements, 0 < pl.objectBBoxW.getD 0)
    (hH : ∀ pl ∈ placements, 0 < pl.objectBBoxH.getD 0)
    (hSc : ∀ pl ∈ placements, 0 < pl.slotScale.getD 0)
    (hL : cfg.letterFontSizes = none ∨ cfg.letterFontSizes = some []) :
    Layout.seriesClaimSpec ascentOf widthOf dx dy cfg p S placements := by
  unfold Layout.seriesClaimSpec
  have hloop := Layout.seriesSlotsLoop_ok_map ascentOf widthOf dx dy cfg p S
    placements hL
    (List.range (min placements.length
      (if S = 0 then placements.length else S)))
    (fun i hi => hslot i (List.mem_range.mp hi))
    (fun i hi => hW _ (Layout.placementAt_mem _ _
      (lt_of_lt_of_le (List.mem_range.mp hi) (min_le_left _ _))))
    (fun i hi => hH _ (Layout.placementAt_mem _ _
      (lt_of_lt_of_le (List.mem_range.mp hi) (min_le_left _ _))))
    (fun i hi => hSc _ (Layout.placementAt_mem _ _
      (lt_of_lt_of_le (List.mem_range.mp hi) (min_le_left _ _))))
  refine ⟨(List.range (min placements.length
      (if S = 0 then placements.length else S))).map
      (fun i => Layout.seriesMainOp (ascentOf cfg.fontSize) dx dy cfg p S i
        ((Layout.slotAt cfg i).getD ⟨0, 0⟩)
        (Layout.placementAt placements i)), ?_, ?_, ?_⟩
  · simp only [Layout.drawSeriesNumbers, hloop, List.append_nil]
  · simp
  · intro i hi
    have hget : ((List.range (min placements.length
        (if S = 0 then placements.length else S))).map
        (fun i => Layout.seriesMainOp (ascentOf cfg.fontSize) dx dy cfg p S i
          ((Layout.slotAt cfg i).getD ⟨0, 0⟩)
          (Layout.placementAt placements i)))[i]? =
        some (Layout.seriesMainOp (ascentOf cfg.fontSize) dx dy cfg p S i
          ((Layout.slotAt cfg i).getD ⟨0, 0⟩)
          (Layout.placementAt placements i)) := by
      rw [List.getElem?_map, List.getElem?_range hi, Option.map_some']
    refine ⟨?_, ?_, ?_⟩
    · rw [hget]
      simp only [Option.map_some']
      show some (Layout.seriesValueOf cfg p S i) = _
      simp only [Layout.seriesValueOf]
      by_cases hp : 0 < cfg.padLength.getD 0
      · rw [if_pos hp, if_pos hp]
      · rw [if_neg hp, if_neg hp]
    · rw [hget]
      rfl
    · intro hc
      rw [hget]
      show some (Layout.parseColor (Layout.colorOrDefault cfg.color)) = _
      rw [hc]
      show some (Layout.parseColor "#000000") = _
      rw [Layout.parseColor_black]

namespace Layout

/-- A series configuration without per-letter sizes. -/
def exampleSeriesCfg : SeriesCfg :=
  { prefixStr := some "A", padLength := some 3, start := 1, step := 1,
    fontSize := 12, color := none, slots := [⟨0, 0⟩],
    letterFontSizes := none, letterOffsets := none }

/-- The same configuration in per-letter mode (`letterFontSizes = [20]`). -/
def examplePerLetterCfg : SeriesCfg :=
  { prefixStr := some "A", padLength := none, start := 1, step := 1,
    fontSize := 12, color := none, slots := [⟨0, 0⟩],
    letterFontSizes := some [20], letterOffsets := none }

/-- A valid slot placement: 100×50 pt object box, scale 1, content box at
the origin. -/
def examplePlacement : Placement :=
  { contentLeft := some 0, contentBottom := some 0, slotLeft := none,
    slotBottom := none, objectBBoxW := some 100, objectBBoxH := some 50,
    slotScale := some 1 }

end Layout

/-- Witness for C9 at a concrete one-slot configuration. -/
theorem c9_series_value_size_color_witness :
    ((∀ i, i < min ([Layout.examplePlacement].length)
        (if (1 : ℕ) = 0 then [Layout.examplePlacement].length else 1) →
      (Layout.slotAt Layout.exampleSeriesCfg i).isSome) ∧
     (∀ pl ∈ [Layout.examplePlacement], 0 < pl.objectBBoxW.getD 0) ∧
     (∀ pl ∈ [Layout.examplePlacement], 0 < pl.objectBBoxH.getD 0) ∧
     (∀ pl ∈ [Layout.examplePlacement], 0 < pl.slotScale.getD 0) ∧
     (Layout.exampleSeriesCfg.letterFontSizes = none ∨
      Layout.exampleSeriesCfg.letterFontSizes = some [])) ∧
    Layout.seriesClaimSpec (fun _ => 9) (fun _ _ => 6) 0 0
      Layout.exampleSeriesCfg 0 1 [Layout.examplePlacement] :=
  ⟨⟨fun i hi => by
      rw [show i = 0 by simpa using hi]
      rfl,
    fun pl hpl => by
      rw [show pl = Layout.examplePlacement by simpa using hpl]
      norm_num [Layout.examplePlacement],
    fun pl hpl => by
      rw [show pl = Layout.examplePlacement by simpa using hpl]
      norm_num [Layout.examplePlacement],
    fun pl hpl => by
      rw [show pl = Layout.examplePlacement by simpa using hpl]
      norm_num [Layout.examplePlacement],
    Or.inl rfl⟩,
   c9_series_value_size_color (fun _ => 9) (fun _ _ => 6) 0 0
     Layout.exampleSeriesCfg 0 1 [Layout.examplePlacement]
     (fun i hi => by
       rw [show i = 0 by simpa using hi]
       rfl)
     (fun pl hpl => by
       rw [show pl = Layout.examplePlacement by simpa using hpl]
       norm_num [Layout.examplePlacement])
     (fun pl hpl => by
       rw [show pl = Layout.examplePlacement by simpa using hpl]
       norm_num [Layout.examplePlacement])
     (fun pl hpl => by
       rw [show pl = Layout.examplePlacement by simpa using hpl]
       norm_num [Layout.examplePlacement])
     (Or.inl rfl)⟩

/-- C9 counterexample: with `letterFontSizes = [20]`, `fontSize = 12` and
`slotScale = 1`, the first drawn character of the series value has size
`20 · 1 = 20`, not `fontSize · slotScale = 12`: the claim's "drawn at
final font size fontSize·slotScale" fails for per-letter
configurations. -/
theorem c9_counterexample_perLetter_size :
    (Layout.drawSeriesNumbers (fun _ => 9) (fun _ _ => 6) 0 0
        [Layout.examplePerLetterCfg] 0 1 [Layout.examplePlacement]).map
        (fun ops => (ops.map Layout.DrawOp.size).head?) =
      .ok (some (20 * 1)) ∧
    (20 : ℚ) * 1 = 20 ∧
    Layout.examplePerLetterCfg.fontSize *
      ((Layout.examplePlacement).slotScale.getD 0) = 12 ∧
    (20 : ℚ) ≠ 12 :=
  ⟨rfl, by norm_num,
   by norm_num [Layout.examplePerLetterCfg, Layout.examplePlacement],
   by norm_num⟩

namespace Worker

theorem setSlot_length (acc : List (Option String)) (idx : Int) (b : String) :
    (setSlot acc idx b).length = acc.length := by
  unfold setSlot
  split <;> simp

theorem fillLoop_length (l : List (Int × String)) (init : List (Option String)) :
    (l.foldl (fun acc e => setSlot acc e.1 e.2) init).length = init.length := by
  induction l generalizing init with
  | nil => rfl
  | cons e t ih => rw [List.foldl_cons, ih, setSlot_length]

theorem setSlot_getElem?_ne (acc : List (Option String)) (idx : Int) (b : String)
    (i : ℕ) (hne : idx ≠ (i : Int)) : (setSlot acc idx b)[i]? = acc[i]? := by
  unfold setSlot
  split
  next hin =>
    apply List.getElem?_set_ne
    omega
  · rfl

theorem setSlot_getElem?_self (acc : List (Option String)) (b : String) (i : ℕ)
    (hi : i < acc.length) : (setSlot acc (i : Int) b)[i]? = some (some b) := by
  unfold setSlot
  rw [if_pos ⟨Int.natCast_nonneg i, by exact_mod_cast hi⟩]
  rw [show ((i : Int)).toNat = i by omega]
  rw [List.getElem?_set_self', List.getElem?_eq_getElem hi]
  rfl

theorem setSlot_getElem?_eq (acc : List (Option String)) (idx : Int)
    (b : String) (i : ℕ) (hidx : idx = (i : Int)) (hi : i < acc.length) :
    (setSlot acc idx b)[i]? = some (some b) := by
  rw [hidx]
  exact setSlot_getElem?_self acc b i hi

theorem fillLoop_getElem? (l : List (Int × String)) (init : List (Option String))
    (i : ℕ) (hi : i < init.length) :
    (l.foldl (fun acc e => setSlot acc e.1 e.2) init)[i]? =
      match (l.filter fun e => e.1 == (i : Int)).getLast? with
      | some e => some (some e.2)
      | none => init[i]? := by
  induction l generalizing init with
  | nil => rfl
  | cons e t ih =>
    rw [List.foldl_cons]
    have hlen : i < (setSlot init e.1 e.2).length := by
      rw [setSlot_length]
      exact hi
    rw [ih _ hlen]
    by_cases he : e.1 = (i : Int)
    · rw [List.filter_cons_of_pos (by simpa using he)]
      rcases hft : t.filter (fun e => e.1 == (i : Int)) with _ | ⟨f, ft⟩
      · rw [hft]
        simp only [List.getLast?_nil, List.getLast?_singleton]
        exact setSlot_getElem?_eq init e.1 e.2 i he hi
      · rw [hft]
        rw [List.getLast?_cons_cons]
        obtain ⟨g, hgl⟩ := Option.isSome_iff_exists.mp
          (List.getLast?_isSome.mpr (List.cons_ne_nil f ft))
        rw [hgl]
    · rw [List.filter_cons_of_neg (by simpa using he)]
      rw [setSlot_getElem?_ne init e.1 e.2 i he]

end Worker

namespace Worker

theorem nodup_fst_inj {l : List (Int × String)}
    (hn : (l.map Prod.fst).Nodup) {x y : Int × String}
    (hx : x ∈ l) (hy : y ∈ l) (h1 : x.1 = y.1) : x = y :=
  List.inj_on_of_nodup_map hn hx hy h1

theorem eq_singleton_of_nodup_mem {α : Type} (l : List α) (hn : l.Nodup)
    (e : α) (he : e ∈ l) (hall : ∀ x ∈ l, x = e) : l = [e] := by
  cases l with
  | nil => cases he
  | cons x t =>
    have hx := hall x (List.mem_cons_self x t)
    subst hx
    cases t with
    | nil => rfl
    | cons y u =>
      have hy := hall y (by simp)
      rw [List.nodup_cons] at hn
      have hmem : x ∈ y :: u := by
        rw [← hy]
        exact List.mem_cons_self y u
      exact absurd hmem hn.1

theorem unique_filter_eq (l : List (Int × String)) (i : ℕ)
    (hn : (l.map Prod.fst).Nodup) (e : Int × String)
    (he : e ∈ l) (hei : e.1 = (i : Int)) :
    l.filter (fun x => x.1 == (i : Int)) = [e] := by
  refine eq_singleton_of_nodup_mem _ ((hn.of_map _).filter _) e
    (List.mem_filter.mpr ⟨he, by simpa using hei⟩) ?_
  intro x hx
  obtain ⟨hxl, hxi⟩ := List.mem_filter.mp hx
  exact nodup_fst_inj hn hxl he (by rw [hei]; simpa using hxi)

theorem fillSlots_getElem?_of_unique (total : ℕ) (vs : List ChildValue)
    (hn : ((unionEntries vs).map Prod.fst).Nodup) (i : ℕ) (hi : i < total)
    (e : Int × String) (he : e ∈ unionEntries vs) (hei : e.1 = (i : Int)) :
    (fillSlots total vs)[i]? = some (some e.2) := by
  unfold fillSlots
  rw [fillLoop_getElem? _ _ _ (by simpa using hi)]
  rw [unique_filter_eq _ _ hn e he hei]
  rfl

theorem fillSlots_getElem?_of_absent (total : ℕ) (vs : List ChildValue)
    (i : ℕ) (hi : i < total)
    (habs : ∀ e ∈ unionEntries vs, e.1 ≠ (i : Int)) :
    (fillSlots total vs)[i]? = some none := by
  unfold fillSlots
  rw [fillLoop_getElem? _ _ _ (by simpa using hi)]
  rw [List.filter_eq_nil_iff.mpr (fun e hel => by simpa using habs e hel)]
  rw [List.getLast?_nil]
  rw [List.getElem?_eq_getElem (by simpa using hi)]
  simp

theorem fillSlots_length (total : ℕ) (vs : List ChildValue) :
    (fillSlots total vs).length = total := by
  unfold fillSlots
  rw [fillLoop_length]
  simp

/-- The claimed behaviour of the complete-merge case: the assembled
artifact has exactly `totalPages` pages, page `i` comes from the entry
with `pageIndex = i`, and the result does not depend on the order or
grouping in which the children's entries were observed. -/
def mergeCompleteSpec (total : ℕ) (vs : List ChildValue) : Prop :=
  ∃ out, processMergeAssemble total vs = .ok out ∧
    out.length = total ∧
    (∀ i : ℕ, i < total → ∀ e ∈ unionEntries vs, e.1 = (i : Int) →
      out[i]? = some e.2) ∧
    (∀ vs' : List ChildValue,
      (unionEntries vs').Perm (unionEntries vs) →
      processMergeAssemble total vs' = processMergeAssemble total vs)

end Worker

/-- C4: the merge parent fails with the missing-rendered-pages error
whenever some pageIndex in `[0, totalPages)` is absent from the union of
the children's returned values; and when every pageIndex is present
(exactly once, with non-empty payloads — which is what disjoint batch
ranges produce), the merged artifact has exactly `totalPages` pages,
page `i` being the one returned for pageIndex `i`, independently of the
order or grouping in which the children completed. -/
theorem c4_processMerge_completeness (total : ℕ) (vs : List Worker.ChildValue) :
    ((∃ i : ℕ, i < total ∧ ∀ e ∈ Worker.unionEntries vs, e.1 ≠ (i : Int)) →
      Worker.processMergeAssemble total vs = .error .missingRenderedPages) ∧
    ((∀ i : ℕ, i < total →
        ∃ e ∈ Worker.unionEntries vs, e.1 = (i : Int) ∧ e.2 ≠ "") →
      ((Worker.unionEntries vs).map Prod.fst).Nodup →
      Worker.mergeCompleteSpec total vs) := by
  constructor
  · rintro ⟨i, hi, habs⟩
    have hslot := Worker.fillSlots_getElem?_of_absent total vs i hi habs
    have hmem : (none : Option String) ∈ Worker.fillSlots total vs :=
      List.getElem?_mem hslot
    have htrue : (Worker.fillSlots total vs).any Worker.slotMissing = true :=
      List.any_eq_true.mpr ⟨none, hmem, rfl⟩
    simp [Worker.processMergeAssemble, htrue]
  · intro hcov hn
    have hany : (Worker.fillSlots total vs).any Worker.slotMissing = false := by
      rw [List.any_eq_false]
      intro x hx
      obtain ⟨j, hj⟩ := List.mem_iff_getElem?.mp hx
      have hjlt : j < total := by
        obtain ⟨hlt, -⟩ := List.getElem?_eq_some.mp hj
        rwa [Worker.fillSlots_length] at hlt
      obtain ⟨e, hel, hei, hne⟩ := hcov j hjlt
      have hu := Worker.fillSlots_getElem?_of_unique total vs hn j hjlt e hel hei
      rw [hj] at hu
      rw [Option.some.inj hu]
      simp [Worker.slotMissing, hne]
    refine ⟨(Worker.fillSlots total vs).map (fun s => s.getD ""), ?_, ?_, ?_, ?_⟩
    · simp [Worker.processMergeAssemble, hany]
    · simp [Worker.fillSlots_length]
    · intro i hi e hel hei
      have hslot := Worker.fillSlots_getElem?_of_unique total vs hn i hi e hel hei
      rw [List.getElem?_map, hslot]
      rfl
    · intro vs' hperm
      have hslots : Worker.fillSlots total vs' = Worker.fillSlots total vs := by
        apply List.ext_getElem?
        intro j
        by_cases hj : j < total
        · obtain ⟨e, hel, hei, -⟩ := hcov j hj
          have h1 := Worker.fillSlots_getElem?_of_unique total vs hn j hj e hel hei
          have hperm_f : ((Worker.unionEntries vs').filter
              (fun x => x.1 == (j : Int))).Perm
              ((Worker.unionEntries vs).filter (fun x => x.1 == (j : Int))) :=
            hperm.filter _
          rw [Worker.unique_filter_eq _ _ hn e hel hei] at hperm_f
          have hf' := List.perm_singleton.mp hperm_f
          have h2 : (Worker.fillSlots total vs')[j]? = some (some e.2) := by
            unfold Worker.fillSlots
            rw [Worker.fillLoop_getElem? _ _ _ (by simpa using hj), hf']
            rfl
          rw [h1, h2]
        · rw [List.getElem?_eq_none, List.getElem?_eq_none]
          · rw [Worker.fillSlots_length]
            omega
          · rw [Worker.fillSlots_length]
            omega
      unfold Worker.processMergeAssemble
      rw [hslots]

/-- Witness for C4: `totalPages = 2`; a batch union missing page 1 fails,
and a complete union delivered as two out-of-order children merges into
`["x", "y"]`. -/
theorem c4_processMerge_completeness_witness :
    ((∃ i : ℕ, i < 2 ∧ ∀ e ∈ Worker.unionEntries
        [Worker.ChildValue.pages [((0 : Int), "x")]], e.1 ≠ (i : Int)) ∧
     (∀ i : ℕ, i < 2 → ∃ e ∈ Worker.unionEntries
        [Worker.ChildValue.pages [((1 : Int), "y")],
         Worker.ChildValue.pages [((0 : Int), "x")]],
        e.1 = (i : Int) ∧ e.2 ≠ "") ∧
     ((Worker.unionEntries
        [Worker.ChildValue.pages [((1 : Int), "y")],
         Worker.ChildValue.pages [((0 : Int), "x")]]).map Prod.fst).Nodup) ∧
    (Worker.processMergeAssemble 2 [Worker.ChildValue.pages [((0 : Int), "x")]] =
      .error .missingRenderedPages ∧
     Worker.mergeCompleteSpec 2
      [Worker.ChildValue.pages [((1 : Int), "y")],
       Worker.ChildValue.pages [((0 : Int), "x")]]) :=
  ⟨⟨⟨1, by decide, by decide⟩, by decide, by decide⟩,
   (c4_processMerge_completeness 2 _).1 ⟨1, by decide, by decide⟩,
   (c4_processMerge_completeness 2 _).2 (by decide) (by decide)⟩

namespace Quota

/-- The durable invariant of the claim, as a decidable check:
`printsUsed ≤ printQuota` (with the engine's effective quota). -/
def durableOk (st : St) : Bool :=
  match st.db with
  | some a => a.printsUsed.getD 0 ≤ quotaEff a
  | none => true

/-- The sequential invariant: the effective used count is within quota,
and a cached `remaining` never exceeds the true headroom. -/
def SeqInv (st : St) : Prop :=
  (∀ a, st.db = some a → usedEff a ≤ quotaEff a) ∧
  (∀ r a, st.cacheRemaining = some r → st.db = some a →
    r ≤ quotaEff a - usedEff a)

theorem quotaEff_backfill (a : Access) : quotaEff (backfill a) = quotaEff a := by
  unfold backfill
  split
  · rfl
  · rfl

theorem usedEff_backfill (a : Access) : usedEff (backfill a) = usedEff a := by
  unfold backfill
  split
  · show max (usedEff a) (a.usedPrints.getD 0) = usedEff a
    unfold usedEff
    omega
  · rfl

theorem revoked_backfill (a : Access) : (backfill a).revoked = a.revoked := by
  unfold backfill
  split
  · rfl
  · rfl

theorem printsUsed_backfill (a : Access) :
    (backfill a).printsUsed = some (usedEff a) := by
  unfold backfill
  split
  · rfl
  next h =>
    push_neg at h
    exact h.2

theorem loadOk_char (keys : List String) (cache : Option Int)
    (db : Option Access) (rem : Int) (st3 : St)
    (hl : loadAndComputeRemainingFromDb ⟨keys, cache, db⟩ = .ok (rem, st3)) :
    ∃ a, db = some a ∧ a.revoked = false ∧
      rem = max 0 (quotaEff a - usedEff a) ∧
      st3 = ⟨keys, cache, some (backfill a)⟩ := by
  cases db with
  | none => simp [loadAndComputeRemainingFromDb] at hl
  | some a =>
    by_cases hrv : a.revoked
    · simp [loadAndComputeRemainingFromDb, hrv] at hl
    · refine ⟨a, rfl, by simpa using hrv, ?_, ?_⟩
      · simp only [loadAndComputeRemainingFromDb, hrv, if_false,
          Bool.false_eq_true, Except.ok.injEq, Prod.mk.injEq] at hl
        exact hl.1.symm
      · simp only [loadAndComputeRemainingFromDb, hrv, if_false,
          Bool.false_eq_true, Except.ok.injEq, Prod.mk.injEq] at hl
        exact hl.2.symm

end Quota

namespace Quota

theorem fastPath_seqInv (k : String) (st1 : St) (h : SeqInv st1) :
    SeqInv (fastPathAfterGate k st1).2 := by
  obtain ⟨keys, cache, db⟩ := st1
  obtain ⟨h1, h2⟩ := h
  cases cache with
  | some r =>
    by_cases hr : r ≤ 0
    · have heval : fastPathAfterGate k ⟨keys, some r, db⟩ =
          (some .LIMIT, ⟨keys.erase k, some r, db⟩) := by
        simp [fastPathAfterGate, atomicPrintDecrement, fastStep3, fastFinish, hr]
      rw [heval]
      exact ⟨h1, h2⟩
    · have hne2 : r - 1 ≠ -2 := by omega
      have hne1 : r - 1 ≠ -1 := by omega
      have heval : fastPathAfterGate k ⟨keys, some r, db⟩ =
          (none, writeBehindDbConsume ⟨keys, some (r - 1), db⟩) := by
        simp [fastPathAfterGate, atomicPrintDecrement, fastStep3, fastFinish,
          hr, hne2, hne1]
      rw [heval]
      cases db with
      | none =>
        refine ⟨?_, ?_⟩
        · intro a ha
          simp [writeBehindDbConsume] at ha
        · intro r' a hr' ha
          simp [writeBehindDbConsume] at ha
      | some a =>
        have hq := h1 a rfl
        have hc := h2 r a rfl rfl
        by_cases hrv : a.revoked
        · have hwb : writeBehindDbConsume ⟨keys, some (r - 1), some a⟩ =
              ⟨keys, some (r - 1), some a⟩ := by
            simp [writeBehindDbConsume, hrv]
          rw [hwb]
          refine ⟨?_, ?_⟩
          · intro a' ha'
            have := Option.some.inj ha'
            subst this
            exact hq
          · intro r' a' hr' ha'
            have := Option.some.inj ha'
            subst this
            have := Option.some.inj hr'
            omega
        · have hwb : writeBehindDbConsume ⟨keys, some (r - 1), some a⟩ =
              ⟨keys, some (r - 1),
                some { a with printsUsed := some (a.printsUsed.getD 0 + 1) }⟩ := by
            simp [writeBehindDbConsume, hrv]
          rw [hwb]
          have e3 : quotaEff { a with printsUsed := some (a.printsUsed.getD 0 + 1) } =
              quotaEff a := rfl
          have e1 : usedEff { a with printsUsed := some (a.printsUsed.getD 0 + 1) } =
              max (a.printsUsed.getD 0 + 1) (a.usedPrints.getD 0) := rfl
          have e2 : usedEff a =
              max (a.printsUsed.getD 0) (a.usedPrints.getD 0) := rfl
          refine ⟨?_, ?_⟩
          · intro a' ha'
            have := Option.some.inj ha'
            subst this
            rw [e1, e3]
            rw [e2] at hq hc
            omega
          · intro r' a' hr' ha'
            have := Option.some.inj ha'
            subst this
            have hrr := Option.some.inj hr'
            rw [e1, e3]
            rw [e2] at hq hc
            omega
  | none =>
    rcases hl : loadAndComputeRemainingFromDb ⟨keys, none, db⟩ with e | p
    · have heval : fastPathAfterGate k ⟨keys, none, db⟩ =
          (some e, ⟨keys, none, db⟩) := by
        simp [fastPathAfterGate, atomicPrintDecrement, fastStep3, fastFinish, hl]
      rw [heval]
      exact ⟨h1, h2⟩
    · obtain ⟨rem, st3⟩ := p
      obtain ⟨a, hdb, hrv, hrem, hst3⟩ := loadOk_char keys none db rem st3 hl
      subst hdb
      subst hst3
      have hq := h1 a rfl
      have hup : a.usedPrints.getD 0 ≤ usedEff a := le_max_right _ _
      have hupb : (backfill a).usedPrints = a.usedPrints := by
        unfold backfill
        split
        · rfl
        · rfl
      have hpu : (backfill a).printsUsed = some (usedEff a) := printsUsed_backfill a
      have heval : fastPathAfterGate k ⟨keys, none, some a⟩ =
          fastFinish k ⟨keys, none, some a⟩
            (.ok (recoveryRetry ⟨keys, none, some (backfill a)⟩ rem)) := by
        simp [fastPathAfterGate, atomicPrintDecrement, fastStep3, hl]
      subst hrem
      by_cases h0 : max 0 (max 0 (quotaEff a - usedEff a)) ≤ 0
      · have hretry : recoveryRetry ⟨keys, none, some (backfill a)⟩
            (max 0 (quotaEff a - usedEff a)) =
            (-1, ⟨keys, some (max 0 (max 0 (quotaEff a - usedEff a))),
              some (backfill a)⟩) := by
          have hqu : quotaEff a ≤ usedEff a := by omega
          simp [recoveryRetry, seedRedisRemaining, atomicPrintDecrement, hqu]
        rw [heval, hretry]
        have hfin : fastFinish k ⟨keys, none, some a⟩
            (.ok (-1, ⟨keys, some (max 0 (max 0 (quotaEff a - usedEff a))),
              some (backfill a)⟩)) =
            (some .LIMIT, ⟨keys.erase k,
              some (max 0 (max 0 (quotaEff a - usedEff a))),
              some (backfill a)⟩) := by
          simp [fastFinish]
        rw [hfin]
        refine ⟨?_, ?_⟩
        · intro a' ha'
          have := Option.some.inj ha'
          subst this
          rw [usedEff_backfill, quotaEff_backfill]
          exact hq
        · intro r' a' hr' ha'
          have := Option.some.inj ha'
          subst this
          have hrr := Option.some.inj hr'
          rw [usedEff_backfill, quotaEff_backfill]
          omega
      · have hretry : recoveryRetry ⟨keys, none, some (backfill a)⟩
            (max 0 (quotaEff a - usedEff a)) =
            (max 0 (max 0 (quotaEff a - usedEff a)) - 1,
             ⟨keys, some (max 0 (max 0 (quotaEff a - usedEff a)) - 1),
              some (backfill a)⟩) := by
          have hqu : ¬quotaEff a ≤ usedEff a := by omega
          simp [recoveryRetry, seedRedisRemaining, atomicPrintDecrement, hqu]
        have hne : max 0 (max 0 (quotaEff a - usedEff a)) - 1 ≠ -1 := by omega
        rw [heval, hretry]
        have hfin : fastFinish k ⟨keys, none, some a⟩
            (.ok (max 0 (max 0 (quotaEff a - usedEff a)) - 1,
              ⟨keys, some (max 0 (max 0 (quotaEff a - usedEff a)) - 1),
               some (backfill a)⟩)) =
            (none, writeBehindDbConsume
              ⟨keys, some (max 0 (max 0 (quotaEff a - usedEff a)) - 1),
               some (backfill a)⟩) := by
          simp [fastFinish, hne]
          omega
        rw [hfin]
        have hwb : writeBehindDbConsume
            ⟨keys, some (max 0 (max 0 (quotaEff a - usedEff a)) - 1),
             some (backfill a)⟩ =
            ⟨keys, some (max 0 (max 0 (quotaEff a - usedEff a)) - 1),
             some { backfill a with
               printsUsed := some ((backfill a).printsUsed.getD 0 + 1) }⟩ := by
          simp [writeBehindDbConsume, revoked_backfill, hrv]
        rw [hwb]
        have eq1 : usedEff { backfill a with
            printsUsed := some ((backfill a).printsUsed.getD 0 + 1) } =
            max ((backfill a).printsUsed.getD 0 + 1)
              ((backfill a).usedPrints.getD 0) := rfl
        have eq2 : quotaEff { backfill a with
            printsUsed := some ((backfill a).printsUsed.getD 0 + 1) } =
            quotaEff (backfill a) := rfl
        refine ⟨?_, ?_⟩
        · intro a' ha'
          have := Option.some.inj ha'
          subst this
          rw [eq1, eq2, quotaEff_backfill, hpu, hupb]
          simp only [Option.getD_some]
          omega
        · intro r' a' hr' ha'
          have := Option.some.inj ha'
          subst this
          have hrr := Option.some.inj hr'
          rw [eq1, eq2, quotaEff_backfill, hpu, hupb]
          simp only [Option.getD_some]
          omega

end Quota

namespace Quota

theorem durable_of_seqInv (st : St) (h : SeqInv st) :
    ∀ a, st.db = some a → a.printsUsed.getD 0 ≤ quotaEff a :=
  fun a ha => le_trans (le_max_left _ _) (h.1 a ha)

theorem dbFallback_durable (st : St)
    (hbound : ∀ a, st.db = some a → a.printsUsed.getD 0 ≤ quotaEff a) :
    ∀ a', (dbFallbackOptimisticConsume st).2.db = some a' →
      a'.printsUsed.getD 0 ≤ quotaEff a' := by
  intro a' ha'
  obtain ⟨keys, cache, db⟩ := st
  cases db with
  | none =>
    simp [dbFallbackOptimisticConsume] at ha'
  | some a =>
    by_cases hrv : a.revoked
    · simp [dbFallbackOptimisticConsume, hrv] at ha'
      rw [← ha']
      exact hbound a rfl
    · by_cases hpq : a.printQuota = none
      · rcases hpu : a.printsUsed with _ | pu
        · simp [dbFallbackOptimisticConsume, hrv, hpq, hpu] at ha'
          rw [← ha']
          exact hbound a rfl
        · by_cases hlt : pu < quotaEff a
          · simp [dbFallbackOptimisticConsume, hrv, hpq, hpu, hlt] at ha'
            rw [← ha']
            show ((some (pu + 1)).getD 0 : Int) ≤ _
            show (pu + 1 : Int) ≤ quotaEff { a with printQuota := some (quotaEff a), printsUsed := some (pu + 1) }
            show (pu + 1 : Int) ≤ quotaEff a
            omega
          · simp [dbFallbackOptimisticConsume, hrv, hpq, hpu, hlt] at ha'
            rw [← ha']
            exact hbound a rfl
      · rcases hpu : a.printsUsed with _ | pu
        · simp [dbFallbackOptimisticConsume, hrv, hpq, hpu] at ha'
          rw [← ha']
          exact hbound a rfl
        · by_cases hlt : pu < quotaEff a
          · simp [dbFallbackOptimisticConsume, hrv, hpq, hpu, hlt] at ha'
            rw [← ha']
            show ((some (pu + 1)).getD 0 : Int) ≤ quotaEff { a with printsUsed := some (pu + 1) }
            show (pu + 1 : Int) ≤ quotaEff a
            omega
          · simp [dbFallbackOptimisticConsume, hrv, hpq, hpu, hlt] at ha'
            rw [← ha']
            exact hbound a rfl

/-- The amended claim's content: a call that sets a fresh idempotency key
(cache reachable, non-interleaved) preserves the sequential invariant —
hence `printsUsed ≤ printQuota` in the durable store — and the durable
fallback keeps `printsUsed ≤ printQuota` from any bounded state.  (A
replayed requestId takes the durable-fallback route without touching the
cached remaining, which is what the counterexample exploits.) -/
def seqPreservationSpec (d u rq : String) (st : St) : Prop :=
  (reqKey d u (Js.trim rq) ∉ st.reqKeys →
    SeqInv (assertAndConsumePrintQuota d u rq true st).2 ∧
    ∀ a, (assertAndConsumePrintQuota d u rq true st).2.db = some a →
      a.printsUsed.getD 0 ≤ quotaEff a) ∧
  (∀ st₂ : St,
    (∀ a, st₂.db = some a → a.printsUsed.getD 0 ≤ quotaEff a) →
    ∀ a', (dbFallbackOptimisticConsume st₂).2.db = some a' →
      a'.printsUsed.getD 0 ≤ quotaEff a')

end Quota

/-- C2 (amended): from any state satisfying the sequential invariant, a
call of `assertAndConsumePrintQuota` that sets a fresh idempotency key,
with the cache reachable, preserves it — in particular
`printsUsed ≤ printQuota` keeps holding in the durable store — and the
durable fallback's conditional update (`printsUsed < printQuota`)
preserves the durable bound from any bounded state.  (Because a replayed
requestId consumes through the durable fallback without adjusting the
cached remaining, and the fast-path write-behind is unconditional, even
purely sequential consumptions can push `printsUsed` past `printQuota`;
see the counterexample.) -/
theorem c2_printsUsed_bound_sequential (d u rq : String) (st : Quota.St)
    (hinv : Quota.SeqInv st) : Quota.seqPreservationSpec d u rq st := by
  constructor
  · intro hk
    have hseq : Quota.SeqInv
        (Quota.assertAndConsumePrintQuota d u rq true st).2 := by
      by_cases hr : Js.trim rq = ""
      · have hbad : Quota.assertAndConsumePrintQuota d u rq true st =
            (some .BAD_REQUEST, st) := by
          simp [Quota.assertAndConsumePrintQuota, hr]
        rw [hbad]
        exact hinv
      · have hok : ¬("OK" : String) = "" := by decide
        have hfast : Quota.assertAndConsumePrintQuota d u rq true st =
            Quota.fastPathAfterGate (Quota.reqKey d u (Js.trim rq))
              { st with
                reqKeys := Quota.reqKey d u (Js.trim rq) :: st.reqKeys } := by
          simp [Quota.assertAndConsumePrintQuota, Quota.redisSetNX, hr, hk, hok]
        rw [hfast]
        exact Quota.fastPath_seqInv _ _ ⟨hinv.1, hinv.2⟩
    exact ⟨hseq, Quota.durable_of_seqInv _ hseq⟩
  · exact fun st₂ hb => Quota.dbFallback_durable st₂ hb

/-- C2 counterexample: with the cache reachable throughout and no
interleaving at all — quota 2, three sequential calls: consume `r1`,
consume `r1` again within the window, consume `r2`.  The replayed `r1`'s
failed `SET NX` resolves to null, so it consumes through the durable
fallback without touching the cached remaining; the next fast-path call
then write-behinds `printsUsed` to 3 > `printQuota = 2`, falsifying
"printsUsed ≤ printQuota holds in the durable store at every
observation". -/
theorem c2_counterexample_sequential_overconsumption :
    Quota.durableOk Quota.seqTraceInit = true ∧
    Quota.assertAndConsumePrintQuota "d" "u" "r1" true Quota.seqTraceInit =
      (none, Quota.seqTraceSt1) ∧
    Quota.assertAndConsumePrintQuota "d" "u" "r1" true Quota.seqTraceSt1 =
      (none, Quota.seqTraceSt2) ∧
    Quota.assertAndConsumePrintQuota "d" "u" "r2" true Quota.seqTraceSt2 =
      (none, Quota.seqTraceSt3) ∧
    Quota.durableOk Quota.seqTraceSt3 = false ∧
    Quota.seqTraceSt3.db = some ⟨some 2, some 2, some 3, some 0, false⟩ :=
  ⟨rfl, rfl, rfl, rfl, rfl, rfl⟩

/-- Witness for C2's amended theorem at the trace's initial state. -/
theorem c2_printsUsed_bound_sequential_witness :
    Quota.SeqInv Quota.seqTraceInit ∧
    Quota.seqPreservationSpec "d" "u" "r1" Quota.seqTraceInit :=
  ⟨⟨fun a ha => by
      rw [← Option.some.inj ha]
      decide,
    fun r a hr ha => by exact absurd hr (by simp [Quota.seqTraceInit])⟩,
   c2_printsUsed_bound_sequential "d" "u" "r1" Quota.seqTraceInit
    ⟨fun a ha => by
      rw [← Option.some.inj ha]
      decide,
    fun r a hr ha => by exact absurd hr (by simp [Quota.seqTraceInit])⟩⟩
